import Mathlib

/-!
Verification of `packmoltools/resolvate.py` (the fixed-column PDB atom-record
codec and the flat AMBER `.crd` coordinate codec) and of the subprocess
control flow of `testing/gromacs_energies.py`.

Modelling conventions:
* Python strings are `List Char`; a text file is a `List (List Char)` of lines
  (as produced by `readlines`, each line keeping its trailing newline).
* Python floats are modelled as rationals.  Every numeric literal the codec
  reads or writes is a fixed-decimal notation, which is exact in `ℚ`; the
  claims only quantify over values on the representable fixed-decimal grid,
  where the IEEE-double rounding performed by Python is the identity.
* Python exceptions are modelled with `Except PyErr`.
-/

/-- Python exception kinds reachable in the modelled code.  `valueError` is
the failure of the built-in `int()` / `float()` conversions (the parse
failure that the spec names `FormatError`); `nameError` is an undefined
global name at a `raise` site; `unboundLocal` is a local variable that is
read before any assignment to it has executed. -/
inductive PyErr where
  | valueError : PyErr
  | indexError : PyErr
  | ioError : PyErr
  | nameError : String → PyErr
  | unboundLocal : String → PyErr
deriving DecidableEq

deriving instance DecidableEq for Except

/-- The whitespace characters stripped by Python `str.strip()` and by the
`int()` / `float()` conversions (restricted to those that can occur in the
modelled files). -/
def isPySpace (c : Char) : Bool :=
  c = ' ' || c = '\t' || c = '\n' || c = '\r'

/-- Python `line[a:b]` for nonnegative `a`, `b` (the only indices the PDB
reader uses); out-of-range indices clamp exactly as in Python. -/
def sliceL (l : List Char) (a b : Nat) : List Char :=
  (l.drop a).take (b - a)

/-- Left-padding with spaces to width `w`, as the Python `%Ns` / `%Nd` /
`%N.Mf` conversions pad (never truncating). -/
def padLeftC (w : Nat) (l : List Char) : List Char :=
  List.replicate (w - l.length) ' ' ++ l

/-- Left-padding with zeros: the fractional digits of a `%.df` conversion. -/
def zeroPad (w : Nat) (l : List Char) : List Char :=
  List.replicate (w - l.length) '0' ++ l

/-- Python `s.strip()` (both ends), over the whitespace set above. -/
def stripPy (l : List Char) : List Char :=
  ((l.dropWhile isPySpace).reverse.dropWhile isPySpace).reverse

/-- Decimal digits of `n`, most significant first; the fuel argument makes
the definition structurally recursive so that it evaluates by kernel
reduction. -/
def natToDigitsF : Nat → Nat → List Char
  | 0, _ => []
  | f + 1, n =>
    if n < 10 then [Nat.digitChar n]
    else natToDigitsF f (n / 10) ++ [Nat.digitChar (n % 10)]

/-- Decimal digits of `n`, most significant first. -/
def natToDigits (n : Nat) : List Char := natToDigitsF (n + 1) n

/-- Numeric value of a digit string, as Python `int` reads it. -/
def digitsToNat (l : List Char) : Nat :=
  l.foldl (fun a c => 10 * a + (c.toNat - 48)) 0

/-- A nonempty all-digit string to its value; otherwise `none`. -/
def parseDigits (l : List Char) : Option Nat :=
  if l = [] then none
  else if l.all Char.isDigit then some (digitsToNat l) else none

/-- Optional-sign-then-digits shape of an already stripped `int()` input. -/
def parseSignedInt : List Char → Option Int
  | [] => none
  | c :: t =>
    if c = '-' then (parseDigits t).map (fun n => -(n : Int))
    else if c = '+' then (parseDigits t).map (fun n => (n : Int))
    else (parseDigits (c :: t)).map (fun n => (n : Int))

/-- Python `int(s)` on a string: strip whitespace, optional sign, digits;
any other shape raises `ValueError` (here: `none`). -/
def parsePyInt (l : List Char) : Option Int :=
  parseSignedInt (stripPy l)

/-- Split a string at its first `'.'`, if any. -/
def splitAtDot : List Char → List Char × Option (List Char)
  | [] => ([], none)
  | c :: t =>
    if c = '.' then ([], some t)
    else
      let p := splitAtDot t
      (c :: p.1, p.2)

/-- Unsigned part of Python `float(s)`: the decimal forms `digits`,
`digits.digits`, `digits.` and `.digits`, read exactly into `ℚ`.  The
exponent / `inf` / `nan` forms of the full grammar are not modelled; no
modelled input uses them. -/
def parseUFloatQ (l : List Char) : Option ℚ :=
  match splitAtDot l with
  | (ip, none) => (parseDigits ip).map (fun n => (n : ℚ))
  | (ip, some fp) =>
    if ip ++ fp = [] then none
    else if (ip ++ fp).all Char.isDigit then
      some ((digitsToNat ip : ℚ) + (digitsToNat fp : ℚ) / 10 ^ fp.length)
    else none

/-- Optional-sign-then-unsigned-decimal shape of a stripped `float()` input. -/
def parseSignedFloat : List Char → Option ℚ
  | [] => none
  | c :: t =>
    if c = '-' then (parseUFloatQ t).map (fun q => -q)
    else if c = '+' then parseUFloatQ t
    else parseUFloatQ (c :: t)

/-- Python `float(s)`: strip whitespace, optional sign, unsigned decimal. -/
def parsePyFloat (l : List Char) : Option ℚ :=
  parseSignedFloat (stripPy l)

/-- Decimal rendering of an integer, as Python `'%d'`. -/
def intRepr (n : Int) : List Char :=
  if n < 0 then '-' :: natToDigits n.natAbs else natToDigits n.toNat

/-- Python `'%wd' % n`. -/
def fmtInt (w : Nat) (n : Int) : List Char := padLeftC w (intRepr n)

/-- Fixed-point rendering with `d` decimals, as Python `'%.df'`.  Python
rounds the IEEE double to `d` decimals; on the grid `q * 10 ^ d ∈ ℤ` (the
only values the claims quantify over) no rounding happens, so the choice of
rounding mode for off-grid values is immaterial here. -/
def fixedRepr (d : Nat) (q : ℚ) : List Char :=
  let m : Int := round (q * (10 : ℚ) ^ d)
  (if m < 0 then ['-'] else []) ++
    natToDigits (m.natAbs / 10 ^ d) ++ '.' :: zeroPad d (natToDigits (m.natAbs % 10 ^ d))

/-- Python `'%w.df' % q`. -/
def fmtFixed (w d : Nat) (q : ℚ) : List Char := padLeftC w (fixedRepr d q)

/-! ### Arithmetic facts about the digit rendering -/

theorem natToDigitsF_eq_of_lt (n : Nat) :
    ∀ f g, n < f → n < g → natToDigitsF f n = natToDigitsF g n := by
  induction n using Nat.strong_induction_on with
  | _ n ih =>
    intro f g hf hg
    match f, g with
    | f + 1, g + 1 =>
      simp only [natToDigitsF]
      by_cases h : n < 10
      · simp [h]
      · have h0 : 0 < n := by omega
        have hdiv : n / 10 < n := Nat.div_lt_self h0 (by omega)
        rw [if_neg h, if_neg h, ih (n / 10) hdiv f g (by omega) (by omega)]

theorem natToDigits_eq (n : Nat) :
    natToDigits n =
      if n < 10 then [Nat.digitChar n]
      else natToDigits (n / 10) ++ [Nat.digitChar (n % 10)] := by
  unfold natToDigits
  by_cases h : n < 10
  · simp [natToDigitsF, h]
  · have h0 : 0 < n := by omega
    have hdiv : n / 10 < n := Nat.div_lt_self h0 (by omega)
    simp only [natToDigitsF, if_neg h]
    rw [natToDigitsF_eq_of_lt (n / 10) n (n / 10 + 1) (by omega) (by omega)]
    simp only [natToDigitsF]

theorem natToDigits_ne_nil (n : Nat) : natToDigits n ≠ [] := by
  rw [natToDigits_eq]
  by_cases h : n < 10 <;> simp [h]

theorem digitChar_isDigit : ∀ d, d < 10 → (Nat.digitChar d).isDigit = true := by decide

theorem digitChar_toNat : ∀ d, d < 10 → (Nat.digitChar d).toNat - 48 = d := by decide

theorem natToDigits_all_digit (n : Nat) : (natToDigits n).all Char.isDigit = true := by
  induction n using Nat.strong_induction_on with
  | _ n ih =>
    rw [natToDigits_eq]
    by_cases h : n < 10
    · simpa [h] using digitChar_isDigit n h
    · have hdiv : n / 10 < n := Nat.div_lt_self (by omega) (by omega)
      simp only [if_neg h, List.all_append, List.all_cons, List.all_nil, Bool.and_eq_true]
      exact ⟨ih (n / 10) hdiv, by simpa using digitChar_isDigit (n % 10) (Nat.mod_lt n (by omega))⟩

theorem digitsToNat_append_singleton (l : List Char) (c : Char) :
    digitsToNat (l ++ [c]) = 10 * digitsToNat l + (c.toNat - 48) := by
  unfold digitsToNat
  rw [List.foldl_append]
  rfl

theorem digitsToNat_natToDigits (n : Nat) : digitsToNat (natToDigits n) = n := by
  induction n using Nat.strong_induction_on with
  | _ n ih =>
    rw [natToDigits_eq]
    by_cases h : n < 10
    · rw [if_pos h]
      show 10 * 0 + ((Nat.digitChar n).toNat - 48) = n
      rw [digitChar_toNat n h]
      omega
    · have hdiv : n / 10 < n := Nat.div_lt_self (by omega) (by omega)
      rw [if_neg h, digitsToNat_append_singleton, ih (n / 10) hdiv,
        digitChar_toNat (n % 10) (Nat.mod_lt n (by omega))]
      omega

theorem natToDigits_length_le (n : Nat) :
    ∀ k, 1 ≤ k → n < 10 ^ k → (natToDigits n).length ≤ k := by
  induction n using Nat.strong_induction_on with
  | _ n ih =>
    intro k hk hn
    rw [natToDigits_eq]
    by_cases h : n < 10
    · simp [h, hk]
    · have hdiv : n / 10 < n := Nat.div_lt_self (by omega) (by omega)
      have hk2 : 2 ≤ k := by
        by_contra hcon
        have : k = 1 := by omega
        subst this
        simp at hn
        omega
      have hn' : n / 10 < 10 ^ (k - 1) := by
        rw [Nat.div_lt_iff_lt_mul (by omega)]
        calc n < 10 ^ k := hn
          _ = 10 ^ (k - 1) * 10 := by
            rw [← pow_succ]
            congr 1
            omega
      have := ih (n / 10) hdiv (k - 1) (by omega) hn'
      rw [if_neg h]
      simp only [List.length_append, List.length_cons, List.length_nil]
      omega

/-! ### Stripping, padding and character facts -/

theorem getLastD_cons_eq (c d : Char) (t : List Char) :
    (c :: t).getLastD d = t.getLastD c := by
  cases t <;> rfl

theorem getLastD_irrel (x d e : Char) (xs : List Char) :
    (x :: xs).getLastD d = (x :: xs).getLastD e := by
  rw [getLastD_cons_eq, getLastD_cons_eq]

theorem getLastD_append_right (l₁ l₂ : List Char) (h : l₂ ≠ []) (d : Char) :
    (l₁ ++ l₂).getLastD d = l₂.getLastD d := by
  induction l₁ generalizing d with
  | nil => rfl
  | cons c t ih =>
    rw [List.cons_append, getLastD_cons_eq, ih c]
    cases l₂ with
    | nil => exact absurd rfl h
    | cons x xs => exact getLastD_irrel x c d xs

theorem all_headD {p : Char → Bool} (l : List Char) (h : l.all p = true) (hne : l ≠ [])
    (d : Char) : p (l.headD d) = true := by
  cases l with
  | nil => exact absurd rfl hne
  | cons c t =>
    simp only [List.all_cons, Bool.and_eq_true] at h
    exact h.1

theorem all_getLastD {p : Char → Bool} (l : List Char) (h : l.all p = true) (hne : l ≠ [])
    (d : Char) : p (l.getLastD d) = true := by
  induction l generalizing d with
  | nil => exact absurd rfl hne
  | cons c t ih =>
    simp only [List.all_cons, Bool.and_eq_true] at h
    rw [getLastD_cons_eq]
    cases t with
    | nil => exact h.1
    | cons x xs => exact ih (by simpa using h.2) (by simp) c

theorem dropWhile_replicate_space (k : Nat) (l : List Char) :
    (List.replicate k ' ' ++ l).dropWhile isPySpace = l.dropWhile isPySpace := by
  induction k with
  | zero => simp
  | succ k ih =>
    rw [List.replicate_succ, List.cons_append, List.dropWhile_cons]
    simp only [show isPySpace ' ' = true from rfl, if_true]
    exact ih

theorem dropWhile_cons_of_neg (c : Char) (t : List Char) (h : isPySpace c = false) :
    (c :: t).dropWhile isPySpace = c :: t := by
  rw [List.dropWhile_cons, h]
  simp

theorem headD_reverse (l : List Char) (d : Char) : l.reverse.headD d = l.getLastD d := by
  rw [List.headD_eq_head?_getD, List.head?_reverse, List.getLastD_eq_getLast?]

theorem rstrip_eq_self (l : List Char) (hne : l ≠ [])
    (hl : isPySpace (l.getLastD ' ') = false) :
    (l.reverse.dropWhile isPySpace).reverse = l := by
  cases hrev : l.reverse with
  | nil =>
    have : l = [] := by simpa using congrArg List.reverse hrev
    exact absurd this hne
  | cons c2 t2 =>
    have hc2 : c2 = l.reverse.headD ' ' := by rw [hrev]; rfl
    have : isPySpace c2 = false := by
      rw [hc2, headD_reverse]
      exact hl
    rw [dropWhile_cons_of_neg c2 t2 this, ← hrev, List.reverse_reverse]

theorem stripPy_padLeft (w : Nat) (l : List Char) (hne : l ≠ [])
    (hh : isPySpace (l.headD ' ') = false) (hl : isPySpace (l.getLastD ' ') = false) :
    stripPy (padLeftC w l) = l := by
  unfold stripPy padLeftC
  rw [dropWhile_replicate_space]
  cases l with
  | nil => exact absurd rfl hne
  | cons c t =>
    rw [dropWhile_cons_of_neg c t (by simpa using hh)]
    exact rstrip_eq_self (c :: t) (by simp) hl

theorem isDigit_char_facts (c : Char) (h : c.isDigit = true) :
    c ≠ '.' ∧ c ≠ '-' ∧ c ≠ '+' ∧ isPySpace c = false := by
  refine ⟨?_, ?_, ?_, ?_⟩
  · intro he; subst he; exact absurd h (by decide)
  · intro he; subst he; exact absurd h (by decide)
  · intro he; subst he; exact absurd h (by decide)
  · simp only [isPySpace, Bool.or_eq_false_iff, decide_eq_false_iff_not]
    refine ⟨⟨⟨?_, ?_⟩, ?_⟩, ?_⟩ <;>
      (intro he; subst he; exact absurd h (by decide))

theorem padLeftC_length (w : Nat) (l : List Char) (h : l.length ≤ w) :
    (padLeftC w l).length = w := by
  simp only [padLeftC, List.length_append, List.length_replicate]
  omega

/-! ### Round trips between rendering and parsing -/

theorem parseDigits_natToDigits (n : Nat) : parseDigits (natToDigits n) = some n := by
  unfold parseDigits
  rw [if_neg (natToDigits_ne_nil n), if_pos (natToDigits_all_digit n), digitsToNat_natToDigits]

theorem intRepr_ne_nil (n : Int) : intRepr n ≠ [] := by
  unfold intRepr
  by_cases h : n < 0
  · simp [h]
  · simp [h, natToDigits_ne_nil]

theorem intRepr_head_not_space (n : Int) : isPySpace ((intRepr n).headD ' ') = false := by
  unfold intRepr
  by_cases h : n < 0
  · rw [if_pos h]; rfl
  · rw [if_neg h]
    have hd := all_headD (natToDigits n.toNat) (natToDigits_all_digit _) (natToDigits_ne_nil _) ' '
    exact (isDigit_char_facts _ hd).2.2.2

theorem intRepr_last_not_space (n : Int) : isPySpace ((intRepr n).getLastD ' ') = false := by
  unfold intRepr
  by_cases h : n < 0
  · rw [if_pos h, getLastD_cons_eq]
    have hd := all_getLastD (natToDigits n.natAbs) (natToDigits_all_digit _) (natToDigits_ne_nil _) '-'
    exact (isDigit_char_facts _ hd).2.2.2
  · rw [if_neg h]
    have hd := all_getLastD (natToDigits n.toNat) (natToDigits_all_digit _) (natToDigits_ne_nil _) ' '
    exact (isDigit_char_facts _ hd).2.2.2

theorem parseSignedInt_digits (l : List Char) (hne : l ≠ []) (hall : l.all Char.isDigit = true) :
    parseSignedInt l = some ((digitsToNat l : Nat) : Int) := by
  cases l with
  | nil => exact absurd rfl hne
  | cons c t =>
    have hc : c.isDigit = true := by
      simp only [List.all_cons, Bool.and_eq_true] at hall
      exact hall.1
    have hfacts := isDigit_char_facts c hc
    simp only [parseSignedInt]
    rw [if_neg hfacts.2.1, if_neg hfacts.2.2.1]
    unfold parseDigits
    rw [if_neg (List.cons_ne_nil c t), if_pos hall]
    rfl

theorem parsePyInt_fmtInt (w : Nat) (n : Int) : parsePyInt (fmtInt w n) = some n := by
  unfold parsePyInt fmtInt
  rw [stripPy_padLeft w (intRepr n) (intRepr_ne_nil n) (intRepr_head_not_space n)
    (intRepr_last_not_space n)]
  unfold intRepr
  by_cases h : n < 0
  · rw [if_pos h]
    have hstep : parseSignedInt ('-' :: natToDigits n.natAbs)
        = (parseDigits (natToDigits n.natAbs)).map (fun k => -(k : Int)) := rfl
    rw [hstep, parseDigits_natToDigits]
    show some (-(n.natAbs : Int)) = some n
    congr 1
    omega
  · rw [if_neg h]
    rw [parseSignedInt_digits _ (natToDigits_ne_nil _) (natToDigits_all_digit _),
      digitsToNat_natToDigits]
    congr 1
    omega

theorem intRepr_length_le (k : Nat) (hk : 2 ≤ k) (n : Int)
    (hlb : -(10 ^ (k - 1) : Int) < n) (hub : n < 10 ^ k) :
    (intRepr n).length ≤ k := by
  unfold intRepr
  by_cases h : n < 0
  · rw [if_pos h]
    have hcast : ((10 ^ (k - 1) : Nat) : Int) = (10 : Int) ^ (k - 1) := by push_cast; ring
    have h2 : n.natAbs < 10 ^ (k - 1) := by omega
    have h3 := natToDigits_length_le n.natAbs (k - 1) (by omega) h2
    simp only [List.length_cons]
    omega
  · rw [if_neg h]
    have hcast : ((10 ^ k : Nat) : Int) = (10 : Int) ^ k := by push_cast; ring
    have h2 : n.toNat < 10 ^ k := by omega
    exact natToDigits_length_le n.toNat k (by omega) h2

theorem fmtInt_length (w : Nat) (n : Int) (h : (intRepr n).length ≤ w) :
    (fmtInt w n).length = w :=
  padLeftC_length w (intRepr n) h

theorem splitAtDot_no_dot (ip fp : List Char) (h : ∀ c ∈ ip, c ≠ '.') :
    splitAtDot (ip ++ '.' :: fp) = (ip, some fp) := by
  induction ip with
  | nil => simp [splitAtDot]
  | cons c t ih =>
    have hc : c ≠ '.' := h c (List.mem_cons_self c t)
    simp only [List.cons_append, splitAtDot, if_neg hc]
    show (c :: (splitAtDot (t ++ '.' :: fp)).1, (splitAtDot (t ++ '.' :: fp)).2) = (c :: t, some fp)
    rw [ih (fun x hx => h x (List.mem_cons_of_mem c hx))]

theorem digitsToNat_replicate_zero_append (k : Nat) (l : List Char) :
    digitsToNat (List.replicate k '0' ++ l) = digitsToNat l := by
  induction k with
  | zero => simp
  | succ k ih =>
    rw [List.replicate_succ, List.cons_append]
    show digitsToNat (List.replicate k '0' ++ l) = digitsToNat l
    exact ih

theorem digitsToNat_zeroPad (w : Nat) (l : List Char) :
    digitsToNat (zeroPad w l) = digitsToNat l := by
  unfold zeroPad
  exact digitsToNat_replicate_zero_append _ _

theorem zeroPad_all_digit (w : Nat) (l : List Char) (h : l.all Char.isDigit = true) :
    (zeroPad w l).all Char.isDigit = true := by
  unfold zeroPad
  rw [List.all_append, Bool.and_eq_true]
  refine ⟨?_, h⟩
  rw [List.all_eq_true]
  intro x hx
  have hx0 := List.eq_of_mem_replicate hx
  subst hx0
  decide

theorem zeroPad_ne_nil (w : Nat) (l : List Char) (h : l ≠ []) : zeroPad w l ≠ [] := by
  unfold zeroPad
  intro hcon
  exact h (List.append_eq_nil.mp hcon).2

theorem den_one_num_cast (x : ℚ) (h : x.den = 1) : ((x.num : ℚ)) = x := by
  conv_rhs => rw [← Rat.num_div_den x]
  rw [h]
  simp

theorem round_eq_num (x : ℚ) (h : x.den = 1) : round x = x.num := by
  conv_lhs => rw [← den_one_num_cast x h]
  exact round_intCast x.num

theorem fixedRepr_eq (d : Nat) (q : ℚ) (hden : (q * 10 ^ d).den = 1) :
    fixedRepr d q =
      (if (q * 10 ^ d).num < 0 then ['-'] else []) ++
        natToDigits ((q * 10 ^ d).num.natAbs / 10 ^ d) ++
        '.' :: zeroPad d (natToDigits ((q * 10 ^ d).num.natAbs % 10 ^ d)) := by
  show (if round (q * (10 : ℚ) ^ d) < 0 then ['-'] else []) ++
      natToDigits ((round (q * (10 : ℚ) ^ d)).natAbs / 10 ^ d) ++
      '.' :: zeroPad d (natToDigits ((round (q * (10 : ℚ) ^ d)).natAbs % 10 ^ d)) = _
  rw [round_eq_num _ hden]

theorem fixedRepr_ne_nil (d : Nat) (q : ℚ) (hden : (q * 10 ^ d).den = 1) :
    fixedRepr d q ≠ [] := by
  rw [fixedRepr_eq d q hden]
  intro hcon
  rcases List.append_eq_nil.mp hcon with ⟨h1, h2⟩
  simp at h2

theorem fixedRepr_head_not_space (d : Nat) (q : ℚ) (hden : (q * 10 ^ d).den = 1) :
    isPySpace ((fixedRepr d q).headD ' ') = false := by
  rw [fixedRepr_eq d q hden]
  by_cases h : (q * 10 ^ d).num < 0
  · rw [if_pos h]
    show isPySpace '-' = false
    decide
  · rw [if_neg h]
    cases hX : natToDigits ((q * 10 ^ d).num.natAbs / 10 ^ d) with
    | nil => exact absurd hX (natToDigits_ne_nil _)
    | cons c t =>
      have hall := natToDigits_all_digit ((q * 10 ^ d).num.natAbs / 10 ^ d)
      rw [hX] at hall
      simp only [List.all_cons, Bool.and_eq_true] at hall
      exact (isDigit_char_facts c hall.1).2.2.2

theorem fixedRepr_last_not_space (d : Nat) (q : ℚ) (hden : (q * 10 ^ d).den = 1) :
    isPySpace ((fixedRepr d q).getLastD ' ') = false := by
  rw [fixedRepr_eq d q hden]
  have hdfne := natToDigits_ne_nil ((q * 10 ^ d).num.natAbs % 10 ^ d)
  rw [getLastD_append_right _ _ (by simp) ' ', getLastD_cons_eq]
  unfold zeroPad
  rw [getLastD_append_right _ _ hdfne '.']
  have hd := all_getLastD _ (natToDigits_all_digit ((q * 10 ^ d).num.natAbs % 10 ^ d)) hdfne '.'
  exact (isDigit_char_facts _ hd).2.2.2

theorem parseUFloatQ_of_split (l ip fp : List Char) (h : splitAtDot l = (ip, some fp)) :
    parseUFloatQ l =
      if ip ++ fp = [] then none
      else if (ip ++ fp).all Char.isDigit then
        some ((digitsToNat ip : ℚ) + (digitsToNat fp : ℚ) / 10 ^ fp.length)
      else none := by
  unfold parseUFloatQ
  rw [h]

theorem parseUFloatQ_body (d : Nat) (hd : 1 ≤ d) (A : Nat) :
    parseUFloatQ (natToDigits (A / 10 ^ d) ++ '.' :: zeroPad d (natToDigits (A % 10 ^ d))) =
      some ((A : ℚ) / 10 ^ d) := by
  have hipall := natToDigits_all_digit (A / 10 ^ d)
  have hipdot : ∀ c ∈ natToDigits (A / 10 ^ d), c ≠ '.' := fun c hc =>
    (isDigit_char_facts c (List.all_eq_true.mp hipall c hc)).1
  have hfpall : (zeroPad d (natToDigits (A % 10 ^ d))).all Char.isDigit = true :=
    zeroPad_all_digit d _ (natToDigits_all_digit _)
  have hlen : (zeroPad d (natToDigits (A % 10 ^ d))).length = d := by
    have hle := natToDigits_length_le (A % 10 ^ d) d hd
      (Nat.mod_lt A (pow_pos (by norm_num) d))
    simp only [zeroPad, List.length_append, List.length_replicate]
    omega
  rw [parseUFloatQ_of_split _ _ _ (splitAtDot_no_dot _ _ hipdot)]
  rw [if_neg (by simp [natToDigits_ne_nil])]
  rw [if_pos (by rw [List.all_append, Bool.and_eq_true]; exact ⟨hipall, hfpall⟩)]
  rw [digitsToNat_natToDigits, digitsToNat_zeroPad, digitsToNat_natToDigits, hlen]
  congr 1
  have hA := Nat.div_add_mod A (10 ^ d)
  have hAq : ((10 ^ d : Nat) : ℚ) * ((A / 10 ^ d : Nat) : ℚ) + ((A % 10 ^ d : Nat) : ℚ)
      = (A : ℚ) := by
    exact_mod_cast congrArg (fun n : Nat => (n : ℚ)) hA
  have h10 : ((10 : ℚ) ^ d) ≠ 0 := by positivity
  have hcast : ((10 ^ d : Nat) : ℚ) = (10 : ℚ) ^ d := by push_cast; ring
  rw [hcast] at hAq
  rw [eq_div_iff h10, add_mul, div_mul_cancel₀ _ h10]
  linarith [hAq]

theorem parseSignedFloat_of_digit_head (c : Char) (t : List Char) (hc : c.isDigit = true) :
    parseSignedFloat (c :: t) = parseUFloatQ (c :: t) := by
  have hfacts := isDigit_char_facts c hc
  simp only [parseSignedFloat]
  rw [if_neg hfacts.2.1, if_neg hfacts.2.2.1]

theorem parsePyFloat_fmtFixed (w d : Nat) (hd : 1 ≤ d) (q : ℚ) (hden : (q * 10 ^ d).den = 1) :
    parsePyFloat (fmtFixed w d q) = some q := by
  unfold parsePyFloat fmtFixed
  rw [stripPy_padLeft w (fixedRepr d q) (fixedRepr_ne_nil d q hden)
    (fixedRepr_head_not_space d q hden) (fixedRepr_last_not_space d q hden)]
  rw [fixedRepr_eq d q hden]
  have h1 : (((q * 10 ^ d).num : ℚ)) = q * 10 ^ d := den_one_num_cast _ hden
  have hq : q = (((q * 10 ^ d).num : ℚ)) / 10 ^ d := by
    rw [h1, mul_div_cancel_right₀ _ (pow_ne_zero d (by norm_num : (10 : ℚ) ≠ 0))]
  by_cases h : (q * 10 ^ d).num < 0
  · rw [if_pos h]
    have hstep : parseSignedFloat (['-'] ++
        natToDigits ((q * 10 ^ d).num.natAbs / 10 ^ d) ++
        '.' :: zeroPad d (natToDigits ((q * 10 ^ d).num.natAbs % 10 ^ d)))
        = (parseUFloatQ (natToDigits ((q * 10 ^ d).num.natAbs / 10 ^ d) ++
            '.' :: zeroPad d (natToDigits ((q * 10 ^ d).num.natAbs % 10 ^ d)))).map
            (fun x => -x) := rfl
    rw [hstep, parseUFloatQ_body d hd _]
    show some (-(((q * 10 ^ d).num.natAbs : ℚ) / 10 ^ d)) = some q
    congr 1
    have h3 : (((q * 10 ^ d).num.natAbs : ℕ) : ℚ) = -(((q * 10 ^ d).num : ℚ)) := by
      have h2 : ((q * 10 ^ d).num.natAbs : ℤ) = -(q * 10 ^ d).num := by omega
      have h4 : ((((q * 10 ^ d).num.natAbs : ℤ)) : ℚ) = (((-(q * 10 ^ d).num : ℤ)) : ℚ) := by
        rw [h2]
      rw [Int.cast_natCast, Int.cast_neg] at h4
      exact h4
    calc -(((q * 10 ^ d).num.natAbs : ℚ) / 10 ^ d)
        = -((-(((q * 10 ^ d).num : ℚ))) / 10 ^ d) := by rw [h3]
      _ = (((q * 10 ^ d).num : ℚ)) / 10 ^ d := by ring
      _ = q := hq.symm
  · rw [if_neg h]
    obtain ⟨c, t, hX⟩ : ∃ c t, natToDigits ((q * 10 ^ d).num.natAbs / 10 ^ d) = c :: t := by
      cases hDI : natToDigits ((q * 10 ^ d).num.natAbs / 10 ^ d) with
      | nil => exact absurd hDI (natToDigits_ne_nil _)
      | cons c t => exact ⟨c, t, rfl⟩
    have hc : c.isDigit = true := by
      have hall := natToDigits_all_digit ((q * 10 ^ d).num.natAbs / 10 ^ d)
      rw [hX] at hall
      simp only [List.all_cons, Bool.and_eq_true] at hall
      exact hall.1
    rw [List.nil_append, hX, List.cons_append, parseSignedFloat_of_digit_head c _ hc,
      ← List.cons_append, ← hX, parseUFloatQ_body d hd _]
    congr 1
    have h3 : (((q * 10 ^ d).num.natAbs : ℕ) : ℚ) = (((q * 10 ^ d).num : ℚ)) := by
      have h2 : ((q * 10 ^ d).num.natAbs : ℤ) = (q * 10 ^ d).num := by omega
      have h4 : ((((q * 10 ^ d).num.natAbs : ℤ)) : ℚ) = (((q * 10 ^ d).num : ℤ) : ℚ) := by
        rw [h2]
      rw [Int.cast_natCast] at h4
      exact h4
    calc (((q * 10 ^ d).num.natAbs : ℚ)) / 10 ^ d
        = (((q * 10 ^ d).num : ℚ)) / 10 ^ d := by rw [h3]
      _ = q := hq.symm

theorem fixedRepr_length_le (d p : Nat) (hd : 1 ≤ d) (hp : 2 ≤ p) (q : ℚ)
    (hden : (q * 10 ^ d).den = 1)
    (hlb : -((10 : ℚ) ^ (p - 1)) < q) (hub : q < (10 : ℚ) ^ p) :
    (fixedRepr d q).length ≤ p + 1 + d := by
  rw [fixedRepr_eq d q hden]
  have h1 : (((q * 10 ^ d).num : ℚ)) = q * 10 ^ d := den_one_num_cast _ hden
  have h10 : (0 : ℚ) < 10 ^ d := by positivity
  have hub' : (((q * 10 ^ d).num : ℚ)) < ((((10 : ℤ) ^ (p + d)) : ℤ) : ℚ) := by
    rw [h1]
    push_cast
    rw [pow_add]
    exact mul_lt_mul_of_pos_right hub h10
  have hlb' : ((((-(10 : ℤ) ^ (p - 1 + d)) : ℤ) : ℚ)) < (((q * 10 ^ d).num : ℚ)) := by
    rw [h1]
    push_cast
    rw [pow_add]
    calc -((10 : ℚ) ^ (p - 1) * 10 ^ d) = (-(10 : ℚ) ^ (p - 1)) * 10 ^ d := by ring
      _ < q * 10 ^ d := mul_lt_mul_of_pos_right hlb h10
  have hubZ : (q * 10 ^ d).num < (10 : ℤ) ^ (p + d) := by exact_mod_cast hub'
  have hlbZ : -((10 : ℤ) ^ (p - 1 + d)) < (q * 10 ^ d).num := by exact_mod_cast hlb'
  have hZP : (zeroPad d (natToDigits ((q * 10 ^ d).num.natAbs % 10 ^ d))).length = d := by
    have hle := natToDigits_length_le ((q * 10 ^ d).num.natAbs % 10 ^ d) d hd
      (Nat.mod_lt _ (pow_pos (by norm_num) d))
    simp only [zeroPad, List.length_append, List.length_replicate]
    omega
  by_cases h : (q * 10 ^ d).num < 0
  · rw [if_pos h]
    have hcast : ((10 ^ (p - 1 + d) : Nat) : Int) = (10 : Int) ^ (p - 1 + d) := by
      push_cast; ring
    have hA : (q * 10 ^ d).num.natAbs < 10 ^ (p - 1 + d) := by omega
    have hdiv : (q * 10 ^ d).num.natAbs / 10 ^ d < 10 ^ (p - 1) := by
      rw [Nat.div_lt_iff_lt_mul (pow_pos (by norm_num) d)]
      calc (q * 10 ^ d).num.natAbs < 10 ^ (p - 1 + d) := hA
        _ = 10 ^ (p - 1) * 10 ^ d := pow_add 10 (p - 1) d
    have hDI := natToDigits_length_le _ (p - 1) (by omega) hdiv
    simp only [List.length_append, List.length_cons, List.length_nil]
    omega
  · rw [if_neg h]
    have hcast : ((10 ^ (p + d) : Nat) : Int) = (10 : Int) ^ (p + d) := by
      push_cast; ring
    have hA : (q * 10 ^ d).num.natAbs < 10 ^ (p + d) := by omega
    have hdiv : (q * 10 ^ d).num.natAbs / 10 ^ d < 10 ^ p := by
      rw [Nat.div_lt_iff_lt_mul (pow_pos (by norm_num) d)]
      calc (q * 10 ^ d).num.natAbs < 10 ^ (p + d) := hA
        _ = 10 ^ p * 10 ^ d := pow_add 10 p d
    have hDI := natToDigits_length_le _ p (by omega) hdiv
    simp only [List.length_append, List.length_cons, List.length_nil]
    omega

theorem fmtFixed_length (w d : Nat) (q : ℚ) (h : (fixedRepr d q).length ≤ w) :
    (fmtFixed w d q).length = w :=
  padLeftC_length w (fixedRepr d q) h

/-! ### The PDB atom-record codec of `resolvate.py` -/

/-- One parsed `ATOM` line, the dictionary built by `readAtomsFromPDB`.
String-valued fields hold exactly the characters of their fixed column
ranges; real-valued fields are exact rationals (see the file header). -/
structure AtomRecord where
  serial : Int
  name : List Char
  altLoc : List Char
  resName : List Char
  chainID : List Char
  resSeq : Int
  iCode : List Char
  x : ℚ
  y : ℚ
  z : ℚ
  occupancy : ℚ
  tempFactor : ℚ
  segID : List Char
  element : List Char
  charge : List Char
deriving DecidableEq

/-- One output line of `writeAtomsToPDB`: the Python format string
`'ATOM  %(serial)5d %(name)4s%(altLoc)c%(resName)3s %(chainID)c%(resSeq)4d%(iCode)c   %(x)8.3f%(y)8.3f%(z)8.3f%(occupancy)6.2f%(tempFactor)6.2f%(element)2s%(charge)2s\n'`.
A `%c` conversion applied to a one-character string emits that character;
the representability conditions the claims quantify over guarantee length
one for `altLoc`, `chainID` and `iCode`, for which the field is emitted
verbatim here. -/
def writePDBLine (a : AtomRecord) : List Char :=
  "ATOM  ".toList ++ fmtInt 5 a.serial ++ " ".toList ++ padLeftC 4 a.name ++ a.altLoc ++
    padLeftC 3 a.resName ++ " ".toList ++ a.chainID ++ fmtInt 4 a.resSeq ++ a.iCode ++
    "   ".toList ++ fmtFixed 8 3 a.x ++ fmtFixed 8 3 a.y ++ fmtFixed 8 3 a.z ++
    fmtFixed 6 2 a.occupancy ++ fmtFixed 6 2 a.tempFactor ++ padLeftC 2 a.element ++
    padLeftC 2 a.charge ++ "\n".toList

/-- Parse one `"ATOM  "`-tagged line as `readAtomsFromPDB` does: the
mandatory `int()` / `float()` conversions in source order (serial, resSeq,
x, y, z), then occupancy and temperature factor, which default to 1.0 and
0.0 when their column range is blank after stripping; any failed conversion
raises `ValueError`.  The purely string-valued fields are plain slices and
cannot fail. -/
def readPDBLine (line : List Char) : Except PyErr AtomRecord :=
  match parsePyInt (sliceL line 6 11) with
  | none => .error .valueError
  | some serial =>
    match parsePyInt (sliceL line 22 26) with
    | none => .error .valueError
    | some resSeq =>
      match parsePyFloat (sliceL line 30 38) with
      | none => .error .valueError
      | some x =>
        match parsePyFloat (sliceL line 38 46) with
        | none => .error .valueError
        | some y =>
          match parsePyFloat (sliceL line 46 54) with
          | none => .error .valueError
          | some z =>
            match (if stripPy (sliceL line 54 60) = [] then some (1 : ℚ)
                   else parsePyFloat (sliceL line 54 60)) with
            | none => .error .valueError
            | some occupancy =>
              match (if stripPy (sliceL line 60 66) = [] then some (0 : ℚ)
                     else parsePyFloat (sliceL line 60 66)) with
              | none => .error .valueError
              | some tempFactor =>
                .ok {
                  serial := serial
                  name := sliceL line 12 16
                  altLoc := sliceL line 16 17
                  resName := sliceL line 17 20
                  chainID := sliceL line 21 22
                  resSeq := resSeq
                  iCode := sliceL line 26 27
                  x := x
                  y := y
                  z := z
                  occupancy := occupancy
                  tempFactor := tempFactor
                  segID := sliceL line 72 76
                  element := sliceL line 76 78
                  charge := sliceL line 78 80 }

/-- `readAtomsFromPDB` over the lines of the file: every line whose first six
characters are exactly `"ATOM  "` is parsed (a parse failure aborts the whole
read); every other line is skipped. -/
def readAtomsFromPDB : List (List Char) → Except PyErr (List AtomRecord)
  | [] => .ok []
  | line :: rest =>
    if sliceL line 0 6 = "ATOM  ".toList then
      match readPDBLine line with
      | .error e => .error e
      | .ok a =>
        match readAtomsFromPDB rest with
        | .error e => .error e
        | .ok tl => .ok (a :: tl)
    else readAtomsFromPDB rest

/-- The in-place renumbering pass of `writeAtomsToPDB` (source lines
159-172), carrying the next serial number, the residue counter `resSeq` and
`last_resSeq`.  The source also assigns `first_residue = atoms[0]["resSeq"]`,
a variable that is never read again; it is omitted here, but its `atoms[0]`
subscript is why `writeAtomsToPDB` raises `IndexError` on an empty list when
renumbering. -/
def renumberGo (s r : Int) (last : Option Int) : List AtomRecord → List AtomRecord
  | [] => []
  | a :: t =>
    if some a.resSeq ≠ last then
      { a with serial := s, resSeq := r + 1 } :: renumberGo (s + 1) (r + 1) (some a.resSeq) t
    else
      { a with serial := s, resSeq := r } :: renumberGo (s + 1) r last t

/-- The renumbering pass started as in the source: serial from 1, residue
counter from 0, `last_resSeq = None`. -/
def renumberAtoms (atoms : List AtomRecord) : List AtomRecord :=
  renumberGo 1 0 none atoms

/-- `writeAtomsToPDB`: optional renumbering pass, then one formatted line
per record.  With `renumber = True` and an empty list the source raises
`IndexError` at `atoms[0]`. -/
def writeAtomsToPDB (atoms : List AtomRecord) (renumber : Bool) :
    Except PyErr (List (List Char)) :=
  if renumber then
    match atoms with
    | [] => .error .indexError
    | _ :: _ => .ok ((renumberAtoms atoms).map writePDBLine)
  else .ok (atoms.map writePDBLine)

/-- The loop of `getPresentSequence`: for every `"ATOM  "` line the serial
and residue-sequence columns are converted with `int()` (failure aborts);
if the line's chain-identifier column equals the requested chain and its
residue-sequence number differs from `last_resSeq`, the residue-name column
is appended and `last_resSeq` is updated. -/
def presentSeqGo (chain : List Char) (last : Option Int) :
    List (List Char) → Except PyErr (List (List Char))
  | [] => .ok []
  | line :: rest =>
    if sliceL line 0 6 = "ATOM  ".toList then
      match parsePyInt (sliceL line 6 11) with
      | none => .error .valueError
      | some _ =>
        match parsePyInt (sliceL line 22 26) with
        | none => .error .valueError
        | some resSeq =>
          if chain = sliceL line 21 22 then
            if some resSeq ≠ last then
              match presentSeqGo chain (some resSeq) rest with
              | .error e => .error e
              | .ok s => .ok (sliceL line 17 20 :: s)
            else presentSeqGo chain last rest
          else presentSeqGo chain last rest
    else presentSeqGo chain last rest

/-- `getPresentSequence(pdbfilename, chain=' ')` on the file's lines. -/
def getPresentSequence (lines : List (List Char)) (chain : List Char) :
    Except PyErr (List (List Char)) :=
  presentSeqGo chain none lines

/-- The fields of an `AtomRecord` that the round-trip claim compares:
(serial, name, altLoc, resName, chainID, resSeq, iCode, x, y, z, occupancy,
tempFactor). -/
def coreFields (a : AtomRecord) :
    Int × List Char × List Char × List Char × List Char × Int × List Char ×
      ℚ × ℚ × ℚ × ℚ × ℚ :=
  (a.serial, a.name, a.altLoc, a.resName, a.chainID, a.resSeq, a.iCode,
    a.x, a.y, a.z, a.occupancy, a.tempFactor)

/-- Field values that fit the fixed columns of the record format: strings of
the exact column widths, integers whose rendering fits its field, and reals
on the written decimal grid (3 decimals at width 8, 2 decimals at width 6). -/
def Representable (a : AtomRecord) : Prop :=
  a.name.length = 4 ∧ a.altLoc.length = 1 ∧ a.resName.length = 3 ∧
  a.chainID.length = 1 ∧ a.iCode.length = 1 ∧
  -10000 < a.serial ∧ a.serial < 100000 ∧
  -1000 < a.resSeq ∧ a.resSeq < 10000 ∧
  (a.x * 1000).den = 1 ∧ -1000 < a.x ∧ a.x < 10000 ∧
  (a.y * 1000).den = 1 ∧ -1000 < a.y ∧ a.y < 10000 ∧
  (a.z * 1000).den = 1 ∧ -1000 < a.z ∧ a.z < 10000 ∧
  (a.occupancy * 100).den = 1 ∧ -100 < a.occupancy ∧ a.occupancy < 1000 ∧
  (a.tempFactor * 100).den = 1 ∧ -100 < a.tempFactor ∧ a.tempFactor < 1000

instance (a : AtomRecord) : Decidable (Representable a) := by
  unfold Representable
  infer_instance

/-! ### Slicing a written line back into its chunks -/

theorem sliceL_here (q r : List Char) (n : Nat) (h : q.length = n) :
    sliceL (q ++ r) 0 n = q := by
  subst h
  simp [sliceL, List.take_left]

theorem sliceL_skip (p rest : List Char) (a b n a2 b2 : Nat) (hp : p.length = n)
    (ha : a = n + a2) (hb : b = n + b2) :
    sliceL (p ++ rest) a b = sliceL rest a2 b2 := by
  subst hp ha hb
  unfold sliceL
  rw [List.drop_append]
  congr 1
  omega

theorem sliceL_nil (l : List Char) (a b : Nat) (h : l.length ≤ a) :
    sliceL l a b = [] := by
  unfold sliceL
  rw [List.drop_eq_nil_of_le h, List.take_nil]

theorem padLeftC_of_length_eq (w : Nat) (l : List Char) (h : l.length = w) :
    padLeftC w l = l := by
  unfold padLeftC
  rw [h, Nat.sub_self, List.replicate_zero, List.nil_append]

theorem den1000_pow (q : ℚ) (h : (q * 1000).den = 1) : (q * 10 ^ (3 : Nat)).den = 1 := by
  rw [show ((10 : ℚ) ^ (3 : Nat)) = 1000 from by norm_num]
  exact h

theorem den100_pow (q : ℚ) (h : (q * 100).den = 1) : (q * 10 ^ (2 : Nat)).den = 1 := by
  rw [show ((10 : ℚ) ^ (2 : Nat)) = 100 from by norm_num]
  exact h

theorem fmtInt5_length (n : Int) (hlb : -10000 < n) (hub : n < 100000) :
    (fmtInt 5 n).length = 5 := by
  apply fmtInt_length
  apply intRepr_length_le 5 (by norm_num)
  · norm_num
    omega
  · norm_num
    omega

theorem fmtInt4_length (n : Int) (hlb : -1000 < n) (hub : n < 10000) :
    (fmtInt 4 n).length = 4 := by
  apply fmtInt_length
  apply intRepr_length_le 4 (by norm_num)
  · norm_num
    omega
  · norm_num
    omega

theorem fmtFixed83_length (q : ℚ) (hden : (q * 1000).den = 1) (hlb : -1000 < q)
    (hub : q < 10000) : (fmtFixed 8 3 q).length = 8 := by
  apply fmtFixed_length
  have hlb' : -((10 : ℚ) ^ (4 - 1)) < q := by
    norm_num
    linarith
  have hub' : q < (10 : ℚ) ^ 4 := by
    norm_num
    linarith
  have hle := fixedRepr_length_le 3 4 (by norm_num) (by norm_num) q (den1000_pow q hden)
    hlb' hub'
  omega

theorem fmtFixed62_length (q : ℚ) (hden : (q * 100).den = 1) (hlb : -100 < q)
    (hub : q < 1000) : (fmtFixed 6 2 q).length = 6 := by
  apply fmtFixed_length
  have hlb' : -((10 : ℚ) ^ (3 - 1)) < q := by
    norm_num
    linarith
  have hub' : q < (10 : ℚ) ^ 3 := by
    norm_num
    linarith
  have hle := fixedRepr_length_le 2 3 (by norm_num) (by norm_num) q (den100_pow q hden)
    hlb' hub'
  omega

/-- The column slices of a written line, under representability: each reader
column range recovers exactly the chunk the writer put there. -/
theorem writePDBLine_slices (a : AtomRecord) (h : Representable a) :
    sliceL (writePDBLine a) 0 6 = "ATOM  ".toList ∧
    sliceL (writePDBLine a) 6 11 = fmtInt 5 a.serial ∧
    sliceL (writePDBLine a) 12 16 = padLeftC 4 a.name ∧
    sliceL (writePDBLine a) 16 17 = a.altLoc ∧
    sliceL (writePDBLine a) 17 20 = padLeftC 3 a.resName ∧
    sliceL (writePDBLine a) 21 22 = a.chainID ∧
    sliceL (writePDBLine a) 22 26 = fmtInt 4 a.resSeq ∧
    sliceL (writePDBLine a) 26 27 = a.iCode ∧
    sliceL (writePDBLine a) 30 38 = fmtFixed 8 3 a.x ∧
    sliceL (writePDBLine a) 38 46 = fmtFixed 8 3 a.y ∧
    sliceL (writePDBLine a) 46 54 = fmtFixed 8 3 a.z ∧
    sliceL (writePDBLine a) 54 60 = fmtFixed 6 2 a.occupancy ∧
    sliceL (writePDBLine a) 60 66 = fmtFixed 6 2 a.tempFactor := by
  obtain ⟨h1, h2, h3, h4, h5, h6, h7, h8, h9, hx1, hx2, hx3, hy1, hy2, hy3,
    hz1, hz2, hz3, ho1, ho2, ho3, ht1, ht2, ht3⟩ := h
  have l1 : ("ATOM  ".toList).length = 6 := by rfl
  have l2 : (fmtInt 5 a.serial).length = 5 := fmtInt5_length a.serial h6 h7
  have l3 : (" ".toList).length = 1 := by rfl
  have l4 : (padLeftC 4 a.name).length = 4 := padLeftC_length 4 a.name (by omega)
  have l5 : a.altLoc.length = 1 := h2
  have l6 : (padLeftC 3 a.resName).length = 3 := padLeftC_length 3 a.resName (by omega)
  have l8 : a.chainID.length = 1 := h4
  have l9 : (fmtInt 4 a.resSeq).length = 4 := fmtInt4_length a.resSeq h8 h9
  have l10 : a.iCode.length = 1 := h5
  have l11 : ("   ".toList).length = 3 := by rfl
  have l12 : (fmtFixed 8 3 a.x).length = 8 := fmtFixed83_length a.x hx1 hx2 hx3
  have l13 : (fmtFixed 8 3 a.y).length = 8 := fmtFixed83_length a.y hy1 hy2 hy3
  have l14 : (fmtFixed 8 3 a.z).length = 8 := fmtFixed83_length a.z hz1 hz2 hz3
  have l15 : (fmtFixed 6 2 a.occupancy).length = 6 := fmtFixed62_length a.occupancy ho1 ho2 ho3
  have l16 : (fmtFixed 6 2 a.tempFactor).length = 6 := fmtFixed62_length a.tempFactor ht1 ht2 ht3
  refine ⟨?_, ?_, ?_, ?_, ?_, ?_, ?_, ?_, ?_, ?_, ?_, ?_, ?_⟩
  · unfold writePDBLine
    simp only [List.append_assoc]
    exact sliceL_here _ _ _ l1
  · unfold writePDBLine
    simp only [List.append_assoc]
    rw [sliceL_skip _ _ _ _ _ 0 5 l1 (by norm_num) (by norm_num)]
    exact sliceL_here _ _ _ l2
  · unfold writePDBLine
    simp only [List.append_assoc]
    rw [sliceL_skip _ _ _ _ _ 6 10 l1 (by norm_num) (by norm_num)]
    rw [sliceL_skip _ _ _ _ _ 1 5 l2 (by norm_num) (by norm_num)]
    rw [sliceL_skip _ _ _ _ _ 0 4 l3 (by norm_num) (by norm_num)]
    exact sliceL_here _ _ _ l4
  · unfold writePDBLine
    simp only [List.append_assoc]
    rw [sliceL_skip _ _ _ _ _ 10 11 l1 (by norm_num) (by norm_num)]
    rw [sliceL_skip _ _ _ _ _ 5 6 l2 (by norm_num) (by norm_num)]
    rw [sliceL_skip _ _ _ _ _ 4 5 l3 (by norm_num) (by norm_num)]
    rw [sliceL_skip _ _ _ _ _ 0 1 l4 (by norm_num) (by norm_num)]
    exact sliceL_here _ _ _ l5
  · unfold writePDBLine
    simp only [List.append_assoc]
    rw [sliceL_skip _ _ _ _ _ 11 14 l1 (by norm_num) (by norm_num)]
    rw [sliceL_skip _ _ _ _ _ 6 9 l2 (by norm_num) (by norm_num)]
    rw [sliceL_skip _ _ _ _ _ 5 8 l3 (by norm_num) (by norm_num)]
    rw [sliceL_skip _ _ _ _ _ 1 4 l4 (by norm_num) (by norm_num)]
    rw [sliceL_skip _ _ _ _ _ 0 3 l5 (by norm_num) (by norm_num)]
    exact sliceL_here _ _ _ l6
  · unfold writePDBLine
    simp only [List.append_assoc]
    rw [sliceL_skip _ _ _ _ _ 15 16 l1 (by norm_num) (by norm_num)]
    rw [sliceL_skip _ _ _ _ _ 10 11 l2 (by norm_num) (by norm_num)]
    rw [sliceL_skip _ _ _ _ _ 9 10 l3 (by norm_num) (by norm_num)]
    rw [sliceL_skip _ _ _ _ _ 5 6 l4 (by norm_num) (by norm_num)]
    rw [sliceL_skip _ _ _ _ _ 4 5 l5 (by norm_num) (by norm_num)]
    rw [sliceL_skip _ _ _ _ _ 1 2 l6 (by norm_num) (by norm_num)]
    rw [sliceL_skip _ _ _ _ _ 0 1 l3 (by norm_num) (by norm_num)]
    exact sliceL_here _ _ _ l8
  · unfold writePDBLine
    simp only [List.append_assoc]
    rw [sliceL_skip _ _ _ _ _ 16 20 l1 (by norm_num) (by norm_num)]
    rw [sliceL_skip _ _ _ _ _ 11 15 l2 (by norm_num) (by norm_num)]
    rw [sliceL_skip _ _ _ _ _ 10 14 l3 (by norm_num) (by norm_num)]
    rw [sliceL_skip _ _ _ _ _ 6 10 l4 (by norm_num) (by norm_num)]
    rw [sliceL_skip _ _ _ _ _ 5 9 l5 (by norm_num) (by norm_num)]
    rw [sliceL_skip _ _ _ _ _ 2 6 l6 (by norm_num) (by norm_num)]
    rw [sliceL_skip _ _ _ _ _ 1 5 l3 (by norm_num) (by norm_num)]
    rw [sliceL_skip _ _ _ _ _ 0 4 l8 (by norm_num) (by norm_num)]
    exact sliceL_here _ _ _ l9
  · unfold writePDBLine
    simp only [List.append_assoc]
    rw [sliceL_skip _ _ _ _ _ 20 21 l1 (by norm_num) (by norm_num)]
    rw [sliceL_skip _ _ _ _ _ 15 16 l2 (by norm_num) (by norm_num)]
    rw [sliceL_skip _ _ _ _ _ 14 15 l3 (by norm_num) (by norm_num)]
    rw [sliceL_skip _ _ _ _ _ 10 11 l4 (by norm_num) (by norm_num)]
    rw [sliceL_skip _ _ _ _ _ 9 10 l5 (by norm_num) (by norm_num)]
    rw [sliceL_skip _ _ _ _ _ 6 7 l6 (by norm_num) (by norm_num)]
    rw [sliceL_skip _ _ _ _ _ 5 6 l3 (by norm_num) (by norm_num)]
    rw [sliceL_skip _ _ _ _ _ 4 5 l8 (by norm_num) (by norm_num)]
    rw [sliceL_skip _ _ _ _ _ 0 1 l9 (by norm_num) (by norm_num)]
    exact sliceL_here _ _ _ l10
  · unfold writePDBLine
    simp only [List.append_assoc]
    rw [sliceL_skip _ _ _ _ _ 24 32 l1 (by norm_num) (by norm_num)]
    rw [sliceL_skip _ _ _ _ _ 19 27 l2 (by norm_num) (by norm_num)]
    rw [sliceL_skip _ _ _ _ _ 18 26 l3 (by norm_num) (by norm_num)]
    rw [sliceL_skip _ _ _ _ _ 14 22 l4 (by norm_num) (by norm_num)]
    rw [sliceL_skip _ _ _ _ _ 13 21 l5 (by norm_num) (by norm_num)]
    rw [sliceL_skip _ _ _ _ _ 10 18 l6 (by norm_num) (by norm_num)]
    rw [sliceL_skip _ _ _ _ _ 9 17 l3 (by norm_num) (by norm_num)]
    rw [sliceL_skip _ _ _ _ _ 8 16 l8 (by norm_num) (by norm_num)]
    rw [sliceL_skip _ _ _ _ _ 4 12 l9 (by norm_num) (by norm_num)]
    rw [sliceL_skip _ _ _ _ _ 3 11 l10 (by norm_num) (by norm_num)]
    rw [sliceL_skip _ _ _ _ _ 0 8 l11 (by norm_num) (by norm_num)]
    exact sliceL_here _ _ _ l12
  · unfold writePDBLine
    simp only [List.append_assoc]
    rw [sliceL_skip _ _ _ _ _ 32 40 l1 (by norm_num) (by norm_num)]
    rw [sliceL_skip _ _ _ _ _ 27 35 l2 (by norm_num) (by norm_num)]
    rw [sliceL_skip _ _ _ _ _ 26 34 l3 (by norm_num) (by norm_num)]
    rw [sliceL_skip _ _ _ _ _ 22 30 l4 (by norm_num) (by norm_num)]
    rw [sliceL_skip _ _ _ _ _ 21 29 l5 (by norm_num) (by norm_num)]
    rw [sliceL_skip _ _ _ _ _ 18 26 l6 (by norm_num) (by norm_num)]
    rw [sliceL_skip _ _ _ _ _ 17 25 l3 (by norm_num) (by norm_num)]
    rw [sliceL_skip _ _ _ _ _ 16 24 l8 (by norm_num) (by norm_num)]
    rw [sliceL_skip _ _ _ _ _ 12 20 l9 (by norm_num) (by norm_num)]
    rw [sliceL_skip _ _ _ _ _ 11 19 l10 (by norm_num) (by norm_num)]
    rw [sliceL_skip _ _ _ _ _ 8 16 l11 (by norm_num) (by norm_num)]
    rw [sliceL_skip _ _ _ _ _ 0 8 l12 (by norm_num) (by norm_num)]
    exact sliceL_here _ _ _ l13
  · unfold writePDBLine
    simp only [List.append_assoc]
    rw [sliceL_skip _ _ _ _ _ 40 48 l1 (by norm_num) (by norm_num)]
    rw [sliceL_skip _ _ _ _ _ 35 43 l2 (by norm_num) (by norm_num)]
    rw [sliceL_skip _ _ _ _ _ 34 42 l3 (by norm_num) (by norm_num)]
    rw [sliceL_skip _ _ _ _ _ 30 38 l4 (by norm_num) (by norm_num)]
    rw [sliceL_skip _ _ _ _ _ 29 37 l5 (by norm_num) (by norm_num)]
    rw [sliceL_skip _ _ _ _ _ 26 34 l6 (by norm_num) (by norm_num)]
    rw [sliceL_skip _ _ _ _ _ 25 33 l3 (by norm_num) (by norm_num)]
    rw [sliceL_skip _ _ _ _ _ 24 32 l8 (by norm_num) (by norm_num)]
    rw [sliceL_skip _ _ _ _ _ 20 28 l9 (by norm_num) (by norm_num)]
    rw [sliceL_skip _ _ _ _ _ 19 27 l10 (by norm_num) (by norm_num)]
    rw [sliceL_skip _ _ _ _ _ 16 24 l11 (by norm_num) (by norm_num)]
    rw [sliceL_skip _ _ _ _ _ 8 16 l12 (by norm_num) (by norm_num)]
    rw [sliceL_skip _ _ _ _ _ 0 8 l13 (by norm_num) (by norm_num)]
    exact sliceL_here _ _ _ l14
  · unfold writePDBLine
    simp only [List.append_assoc]
    rw [sliceL_skip _ _ _ _ _ 48 54 l1 (by norm_num) (by norm_num)]
    rw [sliceL_skip _ _ _ _ _ 43 49 l2 (by norm_num) (by norm_num)]
    rw [sliceL_skip _ _ _ _ _ 42 48 l3 (by norm_num) (by norm_num)]
    rw [sliceL_skip _ _ _ _ _ 38 44 l4 (by norm_num) (by norm_num)]
    rw [sliceL_skip _ _ _ _ _ 37 43 l5 (by norm_num) (by norm_num)]
    rw [sliceL_skip _ _ _ _ _ 34 40 l6 (by norm_num) (by norm_num)]
    rw [sliceL_skip _ _ _ _ _ 33 39 l3 (by norm_num) (by norm_num)]
    rw [sliceL_skip _ _ _ _ _ 32 38 l8 (by norm_num) (by norm_num)]
    rw [sliceL_skip _ _ _ _ _ 28 34 l9 (by norm_num) (by norm_num)]
    rw [sliceL_skip _ _ _ _ _ 27 33 l10 (by norm_num) (by norm_num)]
    rw [sliceL_skip _ _ _ _ _ 24 30 l11 (by norm_num) (by norm_num)]
    rw [sliceL_skip _ _ _ _ _ 16 22 l12 (by norm_num) (by norm_num)]
    rw [sliceL_skip _ _ _ _ _ 8 14 l13 (by norm_num) (by norm_num)]
    rw [sliceL_skip _ _ _ _ _ 0 6 l14 (by norm_num) (by norm_num)]
    exact sliceL_here _ _ _ l15
  · unfold writePDBLine
    simp only [List.append_assoc]
    rw [sliceL_skip _ _ _ _ _ 54 60 l1 (by norm_num) (by norm_num)]
    rw [sliceL_skip _ _ _ _ _ 49 55 l2 (by norm_num) (by norm_num)]
    rw [sliceL_skip _ _ _ _ _ 48 54 l3 (by norm_num) (by norm_num)]
    rw [sliceL_skip _ _ _ _ _ 44 50 l4 (by norm_num) (by norm_num)]
    rw [sliceL_skip _ _ _ _ _ 43 49 l5 (by norm_num) (by norm_num)]
    rw [sliceL_skip _ _ _ _ _ 40 46 l6 (by norm_num) (by norm_num)]
    rw [sliceL_skip _ _ _ _ _ 39 45 l3 (by norm_num) (by norm_num)]
    rw [sliceL_skip _ _ _ _ _ 38 44 l8 (by norm_num) (by norm_num)]
    rw [sliceL_skip _ _ _ _ _ 34 40 l9 (by norm_num) (by norm_num)]
    rw [sliceL_skip _ _ _ _ _ 33 39 l10 (by norm_num) (by norm_num)]
    rw [sliceL_skip _ _ _ _ _ 30 36 l11 (by norm_num) (by norm_num)]
    rw [sliceL_skip _ _ _ _ _ 22 28 l12 (by norm_num) (by norm_num)]
    rw [sliceL_skip _ _ _ _ _ 14 20 l13 (by norm_num) (by norm_num)]
    rw [sliceL_skip _ _ _ _ _ 6 12 l14 (by norm_num) (by norm_num)]
    rw [sliceL_skip _ _ _ _ _ 0 6 l15 (by norm_num) (by norm_num)]
    exact sliceL_here _ _ _ l16

theorem writePDBLine_tag (a : AtomRecord) :
    sliceL (writePDBLine a) 0 6 = "ATOM  ".toList := by
  unfold writePDBLine
  simp only [List.append_assoc]
  exact sliceL_here _ _ _ (by rfl)

theorem readPDBLine_writePDBLine (a : AtomRecord) (h : Representable a) :
    ∃ b, readPDBLine (writePDBLine a) = .ok b ∧ coreFields b = coreFields a := by
  obtain ⟨s0, s1, s2, s3, s4, s5, s6, s7, s8, s9, s10, s11, s12⟩ := writePDBLine_slices a h
  obtain ⟨h1, h2, h3, h4, h5, h6, h7, h8, h9, hx1, hx2, hx3, hy1, hy2, hy3,
    hz1, hz2, hz3, ho1, ho2, ho3, ht1, ht2, ht3⟩ := h
  have p1 : parsePyInt (sliceL (writePDBLine a) 6 11) = some a.serial := by
    rw [s1]
    exact parsePyInt_fmtInt 5 a.serial
  have p2 : parsePyInt (sliceL (writePDBLine a) 22 26) = some a.resSeq := by
    rw [s6]
    exact parsePyInt_fmtInt 4 a.resSeq
  have px : parsePyFloat (sliceL (writePDBLine a) 30 38) = some a.x := by
    rw [s8]
    exact parsePyFloat_fmtFixed 8 3 (by norm_num) a.x (den1000_pow a.x hx1)
  have py : parsePyFloat (sliceL (writePDBLine a) 38 46) = some a.y := by
    rw [s9]
    exact parsePyFloat_fmtFixed 8 3 (by norm_num) a.y (den1000_pow a.y hy1)
  have pz : parsePyFloat (sliceL (writePDBLine a) 46 54) = some a.z := by
    rw [s10]
    exact parsePyFloat_fmtFixed 8 3 (by norm_num) a.z (den1000_pow a.z hz1)
  have ho_ne : ¬(stripPy (sliceL (writePDBLine a) 54 60) = []) := by
    rw [s11]
    unfold fmtFixed
    rw [stripPy_padLeft 6 _ (fixedRepr_ne_nil 2 a.occupancy (den100_pow _ ho1))
      (fixedRepr_head_not_space 2 a.occupancy (den100_pow _ ho1))
      (fixedRepr_last_not_space 2 a.occupancy (den100_pow _ ho1))]
    exact fixedRepr_ne_nil 2 a.occupancy (den100_pow _ ho1)
  have ht_ne : ¬(stripPy (sliceL (writePDBLine a) 60 66) = []) := by
    rw [s12]
    unfold fmtFixed
    rw [stripPy_padLeft 6 _ (fixedRepr_ne_nil 2 a.tempFactor (den100_pow _ ht1))
      (fixedRepr_head_not_space 2 a.tempFactor (den100_pow _ ht1))
      (fixedRepr_last_not_space 2 a.tempFactor (den100_pow _ ht1))]
    exact fixedRepr_ne_nil 2 a.tempFactor (den100_pow _ ht1)
  have po : parsePyFloat (sliceL (writePDBLine a) 54 60) = some a.occupancy := by
    rw [s11]
    exact parsePyFloat_fmtFixed 6 2 (by norm_num) a.occupancy (den100_pow _ ho1)
  have pt : parsePyFloat (sliceL (writePDBLine a) 60 66) = some a.tempFactor := by
    rw [s12]
    exact parsePyFloat_fmtFixed 6 2 (by norm_num) a.tempFactor (den100_pow _ ht1)
  refine ⟨{ serial := a.serial
            name := sliceL (writePDBLine a) 12 16
            altLoc := sliceL (writePDBLine a) 16 17
            resName := sliceL (writePDBLine a) 17 20
            chainID := sliceL (writePDBLine a) 21 22
            resSeq := a.resSeq
            iCode := sliceL (writePDBLine a) 26 27
            x := a.x
            y := a.y
            z := a.z
            occupancy := a.occupancy
            tempFactor := a.tempFactor
            segID := sliceL (writePDBLine a) 72 76
            element := sliceL (writePDBLine a) 76 78
            charge := sliceL (writePDBLine a) 78 80 }, ?_, ?_⟩
  · unfold readPDBLine
    simp only [p1, p2, px, py, pz, if_neg ho_ne, if_neg ht_ne, po, pt]
  · simp only [coreFields]
    rw [s2, s3, s4, s5, s7, padLeftC_of_length_eq 4 a.name h1,
      padLeftC_of_length_eq 3 a.resName h3]

theorem readAtomsFromPDB_map_write (atoms : List AtomRecord)
    (h : ∀ a ∈ atoms, Representable a) :
    ∃ atoms2, readAtomsFromPDB (atoms.map writePDBLine) = .ok atoms2 ∧
      atoms2.map coreFields = atoms.map coreFields := by
  induction atoms with
  | nil => exact ⟨[], rfl, rfl⟩
  | cons a t ih =>
    obtain ⟨b, hb, hbc⟩ := readPDBLine_writePDBLine a (h a (List.mem_cons_self a t))
    obtain ⟨t2, ht2, htc⟩ := ih (fun x hx => h x (List.mem_cons_of_mem a hx))
    refine ⟨b :: t2, ?_, ?_⟩
    · simp only [List.map_cons, readAtomsFromPDB, if_pos (writePDBLine_tag a), hb, ht2]
    · simp only [List.map_cons, hbc, htc]

/-- C1: writing any sequence of representable atom records with
`writeAtomsToPDB` (with the default `renumber = False`) and then parsing the
written lines with `readAtomsFromPDB` reproduces the same sequence of
(serial, name, altLoc, resName, chainID, resSeq, iCode, x, y, z, occupancy,
tempFactor) tuples.  The documented defaulting of blank occupancy /
temperature-factor columns is not exercised on written output, because the
writer always emits digits in those columns. -/
theorem pdb_write_read_roundtrip (atoms : List AtomRecord)
    (h : ∀ a ∈ atoms, Representable a) :
    ((writeAtomsToPDB atoms false).bind readAtomsFromPDB).map (List.map coreFields) =
      Except.ok (atoms.map coreFields) := by
  obtain ⟨atoms2, h2, hc⟩ := readAtomsFromPDB_map_write atoms h
  show (readAtomsFromPDB (atoms.map writePDBLine)).map (List.map coreFields) =
    Except.ok (atoms.map coreFields)
  rw [h2]
  simp only [Except.map, hc]

/-- A concrete record used to instantiate the round-trip theorem. -/
def sampleAtom : AtomRecord :=
  { serial := 7
    name := " CA ".toList
    altLoc := " ".toList
    resName := "ALA".toList
    chainID := "A".toList
    resSeq := 3
    iCode := " ".toList
    x := 3 / 2
    y := -(9 / 4)
    z := 0
    occupancy := 1
    tempFactor := 0
    segID := []
    element := " C".toList
    charge := [] }

unseal Rat.add Rat.mul Rat.inv Rat.sub in
/-- Witness for C1 at a concrete record. -/
theorem pdb_write_read_roundtrip_witness :
    (∀ a ∈ [sampleAtom], Representable a) ∧
    ((writeAtomsToPDB [sampleAtom] false).bind readAtomsFromPDB).map (List.map coreFields) =
      Except.ok ([sampleAtom].map coreFields) :=
  ⟨by decide, pdb_write_read_roundtrip [sampleAtom] (by decide)⟩

/-! ### The renumbering pass -/

theorem renumberGo_cons_eq (s r : Int) (last : Option Int) (a : AtomRecord)
    (t : List AtomRecord) :
    renumberGo s r last (a :: t) =
      { a with serial := s, resSeq := if some a.resSeq ≠ last then r + 1 else r } ::
        renumberGo (s + 1) (if some a.resSeq ≠ last then r + 1 else r) (some a.resSeq) t := by
  by_cases hc : some a.resSeq ≠ last
  · simp only [renumberGo, if_pos hc]
  · simp only [renumberGo, if_neg hc]
    have hl : last = some a.resSeq := (not_ne_iff.mp hc).symm
    rw [hl]

theorem renumberGo_eq_self (l : List AtomRecord) :
    ∀ (s r : Int) (last : Option Int),
      (∀ a, l.head? = some a →
        a.serial = s ∧
          (if last = some a.resSeq then a.resSeq = r else a.resSeq = r + 1)) →
      List.Chain' (fun p q => q.serial = p.serial + 1) l →
      List.Chain' (fun p q => q.resSeq = p.resSeq ∨ q.resSeq = p.resSeq + 1) l →
      renumberGo s r last l = l := by
  induction l with
  | nil =>
    intro s r last hhead hs hr
    rfl
  | cons a t ih =>
    intro s r last hhead hs hr
    obtain ⟨hser, hres⟩ := hhead a rfl
    rw [renumberGo_cons_eq]
    have hres' : a.resSeq = if some a.resSeq ≠ last then r + 1 else r := by
      by_cases hl : last = some a.resSeq
      · rw [if_pos hl] at hres
        rw [if_neg (by simp [hl]), hres]
      · rw [if_neg hl] at hres
        rw [if_pos (fun hcon => hl hcon.symm), hres]
    congr 1
    · rw [← hser, ← hres']
    · apply ih (s + 1) (if some a.resSeq ≠ last then r + 1 else r) (some a.resSeq)
        ?_ hs.tail hr.tail
      intro b hb
      constructor
      · rw [(List.chain'_cons'.mp hs).1 b hb, hser]
      · rcases (List.chain'_cons'.mp hr).1 b hb with hb1 | hb2
        · rw [if_pos (by rw [hb1]), hb1]
          exact hres'
        · rw [if_neg (by simp; omega), hb2]
          omega

theorem renumberGo_serials (l : List AtomRecord) :
    ∀ (s r : Int) (last : Option Int),
      (renumberGo s r last l).map (fun a => a.serial) =
        List.map (fun i : Nat => s + (i : Int)) (List.range l.length) := by
  induction l with
  | nil =>
    intro s r last
    rfl
  | cons a t ih =>
    intro s r last
    rw [renumberGo_cons_eq]
    simp only [List.map_cons, List.length_cons]
    rw [ih (s + 1) _ (some a.resSeq), List.range_succ_eq_map, List.map_cons, List.map_map]
    congr 1
    · norm_num
    · apply List.map_congr_left
      intro i hi
      show s + 1 + (i : Int) = s + ((i + 1 : Nat) : Int)
      push_cast
      ring

theorem renumberAtoms_head_resSeq :
    ∀ (l : List AtomRecord) (b : AtomRecord),
      (renumberAtoms l).head? = some b → b.resSeq = 1 := by
  intro l b hb
  cases l with
  | nil => simp [renumberAtoms, renumberGo] at hb
  | cons a t =>
    unfold renumberAtoms at hb
    rw [renumberGo_cons_eq] at hb
    simp only [List.head?_cons, Option.some.injEq] at hb
    rw [← hb]
    simp

theorem renumberGo_resSeq_diffs (l : List AtomRecord) :
    ∀ (s r : Int) (last : Option Int),
      ((renumberGo s r last l).zip (renumberGo s r last l).tail).map
          (fun pq => pq.2.resSeq - pq.1.resSeq) =
        (l.zip l.tail).map (fun pq => if pq.2.resSeq = pq.1.resSeq then 0 else 1) := by
  induction l with
  | nil =>
    intro s r last
    rfl
  | cons a t ih =>
    intro s r last
    cases t with
    | nil =>
      rw [renumberGo_cons_eq]
      rfl
    | cons b t' =>
      have hcons := renumberGo_cons_eq (s + 1) (if some a.resSeq ≠ last then r + 1 else r)
        (some a.resSeq) b t'
      rw [renumberGo_cons_eq s r last a (b :: t'), hcons]
      simp only [List.tail_cons, List.zip_cons_cons, List.map_cons]
      congr 1
      · show (if some b.resSeq ≠ some a.resSeq
            then (if some a.resSeq ≠ last then r + 1 else r) + 1
            else (if some a.resSeq ≠ last then r + 1 else r)) -
            (if some a.resSeq ≠ last then r + 1 else r) =
          if b.resSeq = a.resSeq then 0 else 1
        by_cases hba : b.resSeq = a.resSeq
        · rw [if_pos hba, if_neg (by simp [hba])]
          omega
        · rw [if_neg hba, if_pos (by simp [hba])]
          omega
      · have htail : renumberGo (s + 1 + 1)
            (if some b.resSeq ≠ some a.resSeq
              then (if some a.resSeq ≠ last then r + 1 else r) + 1
              else (if some a.resSeq ≠ last then r + 1 else r)) (some b.resSeq) t' =
            (renumberGo (s + 1) (if some a.resSeq ≠ last then r + 1 else r)
              (some a.resSeq) (b :: t')).tail := by
          rw [hcons]
          rfl
        rw [← hcons, htail]
        have hih := ih (s + 1) (if some a.resSeq ≠ last then r + 1 else r) (some a.resSeq)
        simp only [List.tail_cons] at hih
        exact hih

/-- C6: on a nonempty record sequence whose serial numbers are already
1..N in order and whose residue-sequence numbers start at 1 and are grouped
into monotone runs (each consecutive pair equal or larger by one), the
renumbering pass of `writeAtomsToPDB` changes nothing, so writing with
`renumber = True` equals writing with `renumber = False`; in general the
pass assigns serials sequentially from 1 in list order, gives the first
record residue-sequence number 1, and increments the written
residue-sequence number exactly at the positions where the immediately
preceding record's original residue-sequence number differs from the
current record's. -/
theorem renumber_noop_and_rule (atoms : List AtomRecord) (hne : atoms ≠ [])
    (hhead : ∀ a ∈ atoms.take 1, a.serial = 1 ∧ a.resSeq = 1)
    (hserc : List.Chain' (fun p q => q.serial = p.serial + 1) atoms)
    (hresc : List.Chain' (fun p q => q.resSeq = p.resSeq ∨ q.resSeq = p.resSeq + 1) atoms) :
    renumberAtoms atoms = atoms ∧
    writeAtomsToPDB atoms true = writeAtomsToPDB atoms false ∧
    (∀ l : List AtomRecord, (renumberAtoms l).map (fun a => a.serial) =
      List.map (fun i : Nat => 1 + (i : Int)) (List.range l.length)) ∧
    (∀ (l : List AtomRecord) (b : AtomRecord),
      (renumberAtoms l).head? = some b → b.resSeq = 1) ∧
    (∀ l : List AtomRecord,
      ((renumberAtoms l).zip (renumberAtoms l).tail).map
          (fun pq => pq.2.resSeq - pq.1.resSeq) =
        (l.zip l.tail).map (fun pq => if pq.2.resSeq = pq.1.resSeq then 0 else 1)) := by
  have hnoop : renumberAtoms atoms = atoms := by
    apply renumberGo_eq_self atoms 1 0 none ?_ hserc hresc
    intro a ha
    have hmem : a ∈ atoms.take 1 := by
      cases atoms with
      | nil => simp at ha
      | cons x t =>
        simp only [List.head?_cons, Option.some.injEq] at ha
        subst ha
        simp
    obtain ⟨h1, h2⟩ := hhead a hmem
    refine ⟨h1, ?_⟩
    rw [if_neg (by simp)]
    omega
  refine ⟨hnoop, ?_, ?_, renumberAtoms_head_resSeq, ?_⟩
  · cases atoms with
    | nil => exact absurd rfl hne
    | cons a t =>
      show Except.ok ((renumberAtoms (a :: t)).map writePDBLine) = _
      rw [hnoop]
      rfl
  · intro l
    exact renumberGo_serials l 1 0 none
  · intro l
    exact renumberGo_resSeq_diffs l 1 0 none

/-- A record template for the renumbering witness. -/
def renumAtom (s r : Int) : AtomRecord :=
  { sampleAtom with serial := s, resSeq := r }

unseal Rat.add Rat.mul Rat.inv Rat.sub in
/-- Witness for C6 at a concrete already-numbered list. -/
theorem renumber_noop_witness :
    ([renumAtom 1 1, renumAtom 2 1, renumAtom 3 2] ≠ []) ∧
    renumberAtoms [renumAtom 1 1, renumAtom 2 1, renumAtom 3 2] =
      [renumAtom 1 1, renumAtom 2 1, renumAtom 3 2] :=
  ⟨by decide,
    (renumber_noop_and_rule [renumAtom 1 1, renumAtom 2 1, renumAtom 3 2]
      (by decide) (by decide)
      (List.chain'_cons.mpr ⟨by decide, List.chain'_cons.mpr
        ⟨by decide, List.chain'_singleton _⟩⟩)
      (List.chain'_cons.mpr ⟨by decide, List.chain'_cons.mpr
        ⟨by decide, List.chain'_singleton _⟩⟩)).1⟩

/-! ### Present-sequence extraction -/

/-- Spec-side description of `presentSequence`: one residue-name token per
run of consecutive equal residue-sequence values among the already filtered
(resSeq, resName) pairs of the requested chain, in first-occurrence order. -/
def runTokens (last : Option Int) : List (Int × List Char) → List (List Char)
  | [] => []
  | p :: rest =>
    if some p.1 = last then runTokens last rest
    else p.2 :: runTokens (some p.1) rest

theorem presentSeqGo_map_write (atoms : List AtomRecord) :
    ∀ (chain : List Char) (last : Option Int),
      (∀ a ∈ atoms, Representable a) →
      presentSeqGo chain last (atoms.map writePDBLine) =
        .ok (runTokens last
          ((atoms.filter (fun a => a.chainID = chain)).map
            (fun a => (a.resSeq, a.resName)))) := by
  induction atoms with
  | nil =>
    intro chain last h
    rfl
  | cons a t ih =>
    intro chain last h
    have hrep := h a (List.mem_cons_self a t)
    have hrest : ∀ x ∈ t, Representable x := fun x hx => h x (List.mem_cons_of_mem a hx)
    obtain ⟨s0, s1, s2, s3, s4, s5, s6, s7, s8, s9, s10, s11, s12⟩ :=
      writePDBLine_slices a hrep
    have p1 : parsePyInt (sliceL (writePDBLine a) 6 11) = some a.serial := by
      rw [s1]
      exact parsePyInt_fmtInt 5 a.serial
    have p2 : parsePyInt (sliceL (writePDBLine a) 22 26) = some a.resSeq := by
      rw [s6]
      exact parsePyInt_fmtInt 4 a.resSeq
    simp only [List.map_cons, presentSeqGo, if_pos (writePDBLine_tag a), p1, p2, s5]
    by_cases hch : chain = a.chainID
    · rw [if_pos hch, List.filter_cons_of_pos (by simp [hch])]
      by_cases hlast : some a.resSeq = last
      · rw [if_neg (by simp [hlast])]
        simp only [List.map_cons, runTokens, if_pos hlast]
        exact ih chain last hrest
      · rw [if_pos hlast]
        rw [ih chain (some a.resSeq) hrest]
        simp only [List.map_cons, runTokens, if_neg hlast]
        rw [s4, padLeftC_of_length_eq 3 a.resName hrep.2.2.1]
    · rw [if_neg hch,
        List.filter_cons_of_neg (by simp; exact fun hcon => hch hcon.symm)]
      exact ih chain last hrest

/-- C5: on a file written from representable records, `getPresentSequence`
returns, for the requested chain, one residue-name token per run of
consecutive equal residue-sequence values among the records of that chain,
in first-occurrence order. -/
theorem present_sequence_runs (atoms : List AtomRecord) (chain : List Char)
    (h : ∀ a ∈ atoms, Representable a) :
    getPresentSequence (atoms.map writePDBLine) chain =
      .ok (runTokens none
        ((atoms.filter (fun a => a.chainID = chain)).map
          (fun a => (a.resSeq, a.resName)))) :=
  presentSeqGo_map_write atoms chain none h

/-- A record template for the present-sequence witness. -/
def seqAtom (c : Char) (r : Int) (n : List Char) : AtomRecord :=
  { sampleAtom with chainID := [c], resSeq := r, resName := n }

/-- The concrete example of the claim: chain A residue-sequence values
[1,1,2,2,3] and chain B values [1,1]. -/
def demoAtoms : List AtomRecord :=
  [seqAtom 'A' 1 "GLY".toList, seqAtom 'A' 1 "GLY".toList,
   seqAtom 'A' 2 "ALA".toList, seqAtom 'A' 2 "ALA".toList,
   seqAtom 'A' 3 "SER".toList,
   seqAtom 'B' 1 "TRP".toList, seqAtom 'B' 1 "TRP".toList]

unseal Rat.add Rat.mul Rat.inv Rat.sub in
/-- Witness for C5 at the claim's example: 3 tokens for chain A, 1 for B. -/
theorem present_sequence_runs_witness :
    (∀ a ∈ demoAtoms, Representable a) ∧
    getPresentSequence (demoAtoms.map writePDBLine) ['A'] =
      .ok ["GLY".toList, "ALA".toList, "SER".toList] ∧
    getPresentSequence (demoAtoms.map writePDBLine) ['B'] =
      .ok ["TRP".toList] ∧
    ["GLY".toList, "ALA".toList, "SER".toList].length = 3 ∧
    ["TRP".toList].length = 1 := by
  refine ⟨by decide, ?_, ?_, by decide, by decide⟩
  · rw [present_sequence_runs demoAtoms ['A'] (by decide)]
    decide
  · rw [present_sequence_runs demoAtoms ['B'] (by decide)]
    decide

/-! ### Mandatory columns and blank-column defaults -/

theorem readPDBLine_fails (line : List Char)
    (hbad : parsePyInt (sliceL line 6 11) = none ∨ parsePyInt (sliceL line 22 26) = none ∨
      parsePyFloat (sliceL line 30 38) = none ∨ parsePyFloat (sliceL line 38 46) = none ∨
      parsePyFloat (sliceL line 46 54) = none) :
    readPDBLine line = .error .valueError := by
  unfold readPDBLine
  cases h1 : parsePyInt (sliceL line 6 11) with
  | none => rfl
  | some v1 =>
    cases h2 : parsePyInt (sliceL line 22 26) with
    | none => rfl
    | some v2 =>
      cases h3 : parsePyFloat (sliceL line 30 38) with
      | none => rfl
      | some v3 =>
        cases h4 : parsePyFloat (sliceL line 38 46) with
        | none => rfl
        | some v4 =>
          cases h5 : parsePyFloat (sliceL line 46 54) with
          | none => rfl
          | some v5 => simp_all

/-- Every failing branch of `readPDBLine` raises the same `ValueError`: the
parse of a line either succeeds or fails with `ValueError`. -/
theorem readPDBLine_ok_or_valueError (line : List Char) :
    (∃ a, readPDBLine line = .ok a) ∨ readPDBLine line = .error .valueError := by
  unfold readPDBLine
  cases parsePyInt (sliceL line 6 11) with
  | none => exact Or.inr rfl
  | some v1 =>
    cases parsePyInt (sliceL line 22 26) with
    | none => exact Or.inr rfl
    | some v2 =>
      cases parsePyFloat (sliceL line 30 38) with
      | none => exact Or.inr rfl
      | some v3 =>
        cases parsePyFloat (sliceL line 38 46) with
        | none => exact Or.inr rfl
        | some v4 =>
          cases parsePyFloat (sliceL line 46 54) with
          | none => exact Or.inr rfl
          | some v5 =>
            cases hocc : (if stripPy (sliceL line 54 60) = [] then some (1 : ℚ)
                else parsePyFloat (sliceL line 54 60)) with
            | none => exact Or.inr rfl
            | some vo =>
              cases htmp : (if stripPy (sliceL line 60 66) = [] then some (0 : ℚ)
                  else parsePyFloat (sliceL line 60 66)) with
              | none => exact Or.inr rfl
              | some vt => exact Or.inl ⟨_, rfl⟩

/-- A tagged line with a failing mandatory column aborts the read of any
file containing it: every other failing line also raises `ValueError`, so
the whole read returns `ValueError` wherever the bad line sits. -/
theorem readAtomsFromPDB_bad_mem (line : List Char)
    (htag : sliceL line 0 6 = "ATOM  ".toList)
    (hbad : parsePyInt (sliceL line 6 11) = none ∨ parsePyInt (sliceL line 22 26) = none ∨
      parsePyFloat (sliceL line 30 38) = none ∨ parsePyFloat (sliceL line 38 46) = none ∨
      parsePyFloat (sliceL line 46 54) = none) :
    ∀ file : List (List Char), line ∈ file →
      readAtomsFromPDB file = .error .valueError := by
  intro file
  induction file with
  | nil => intro h; exact absurd h (List.not_mem_nil line)
  | cons hd tl ih =>
    intro hmem
    rcases List.mem_cons.mp hmem with heq | hmem'
    · subst heq
      simp only [readAtomsFromPDB, if_pos htag, readPDBLine_fails line hbad]
    · have hrec := ih hmem'
      by_cases htag' : sliceL hd 0 6 = "ATOM  ".toList
      · rcases readPDBLine_ok_or_valueError hd with ⟨a, ha⟩ | herr
        · simp only [readAtomsFromPDB, if_pos htag', ha, hrec]
        · simp only [readAtomsFromPDB, if_pos htag', herr]
      · simp only [readAtomsFromPDB, if_neg htag']
        exact hrec

/-- C7: a line anywhere in the file whose first six characters are exactly
the atom tag but whose serial, residue-sequence, x, y or z column is
non-numeric or absent makes `readAtomsFromPDB` fail with the `ValueError`
of the failed `int()` / `float()` conversion (the failure the spec calls
`FormatError`); a blank occupancy or a blank temperature-factor column,
each independently of the other, does not fail and takes the default 1.0
resp. 0.0. -/
theorem mandatory_columns_and_defaults :
    (∀ (file : List (List Char)) (line : List Char), line ∈ file →
      sliceL line 0 6 = "ATOM  ".toList →
      (parsePyInt (sliceL line 6 11) = none ∨ parsePyInt (sliceL line 22 26) = none ∨
       parsePyFloat (sliceL line 30 38) = none ∨ parsePyFloat (sliceL line 38 46) = none ∨
       parsePyFloat (sliceL line 46 54) = none) →
      readAtomsFromPDB file = .error .valueError) ∧
    (∀ line : List Char, sliceL line 0 6 = "ATOM  ".toList →
      parsePyInt (sliceL line 6 11) ≠ none → parsePyInt (sliceL line 22 26) ≠ none →
      parsePyFloat (sliceL line 30 38) ≠ none → parsePyFloat (sliceL line 38 46) ≠ none →
      parsePyFloat (sliceL line 46 54) ≠ none →
      (stripPy (sliceL line 54 60) = [] ∨ parsePyFloat (sliceL line 54 60) ≠ none) →
      (stripPy (sliceL line 60 66) = [] ∨ parsePyFloat (sliceL line 60 66) ≠ none) →
      ∃ a, readAtomsFromPDB [line] = .ok [a] ∧
        (stripPy (sliceL line 54 60) = [] → a.occupancy = 1) ∧
        (stripPy (sliceL line 60 66) = [] → a.tempFactor = 0)) := by
  constructor
  · intro file line hmem htag hbad
    exact readAtomsFromPDB_bad_mem line htag hbad file hmem
  · intro line htag hn1 hn2 hn3 hn4 hn5 hocc htemp
    simp only [readAtomsFromPDB, if_pos htag]
    obtain ⟨v1, h1⟩ := Option.ne_none_iff_exists'.mp hn1
    obtain ⟨v2, h2⟩ := Option.ne_none_iff_exists'.mp hn2
    obtain ⟨v3, h3⟩ := Option.ne_none_iff_exists'.mp hn3
    obtain ⟨v4, h4⟩ := Option.ne_none_iff_exists'.mp hn4
    obtain ⟨v5, h5⟩ := Option.ne_none_iff_exists'.mp hn5
    unfold readPDBLine
    rw [h1, h2, h3, h4, h5]
    by_cases hob : stripPy (sliceL line 54 60) = []
    · rw [if_pos hob]
      by_cases htb : stripPy (sliceL line 60 66) = []
      · rw [if_pos htb]
        exact ⟨_, rfl, fun _ => rfl, fun _ => rfl⟩
      · rw [if_neg htb]
        rcases htemp with htb' | hp
        · exact absurd htb' htb
        · obtain ⟨vt, ht⟩ := Option.ne_none_iff_exists'.mp hp
          rw [ht]
          exact ⟨_, rfl, fun _ => rfl, fun h => absurd h htb⟩
    · rw [if_neg hob]
      rcases hocc with hob' | hp
      · exact absurd hob' hob
      · obtain ⟨vo, ho⟩ := Option.ne_none_iff_exists'.mp hp
        rw [ho]
        by_cases htb : stripPy (sliceL line 60 66) = []
        · rw [if_pos htb]
          exact ⟨_, rfl, fun h => absurd h hob, fun _ => rfl⟩
        · rw [if_neg htb]
          rcases htemp with htb' | hp2
          · exact absurd htb' htb
          · obtain ⟨vt, ht⟩ := Option.ne_none_iff_exists'.mp hp2
            rw [ht]
            exact ⟨_, rfl, fun h => absurd h hob, fun h => absurd h htb⟩

/-- A well-formed 54-character atom line (all trailing columns absent). -/
def demoGoodLine : List Char :=
  ("ATOM  " ++ "    1" ++ " " ++ " CA " ++ " " ++ "ALA" ++ " " ++ "A" ++
    "   2" ++ " " ++ "   " ++ "   1.500" ++ "  -2.250" ++ "   0.000").toList

/-- The same line with a garbage serial column. -/
def demoBadSerialLine : List Char :=
  ("ATOM  " ++ "xxxxx" ++ " " ++ " CA " ++ " " ++ "ALA" ++ " " ++ "A" ++
    "   2" ++ " " ++ "   " ++ "   1.500" ++ "  -2.250" ++ "   0.000").toList

/-- The same line with a blank occupancy column and a numeric
temperature-factor column. -/
def demoBlankOccLine : List Char :=
  demoGoodLine ++ ("      " ++ "  0.50").toList

/-- The same line with a numeric occupancy column; the temperature-factor
columns are absent, hence blank. -/
def demoBlankTempLine : List Char :=
  demoGoodLine ++ "  0.75".toList

unseal Rat.add Rat.mul Rat.inv Rat.sub in
/-- Witness for C7: a garbage serial column on the second line of a
two-line file fails the whole read; a line with a blank occupancy column
but a numeric temperature-factor column defaults only occupancy; a line
with a numeric occupancy column but a blank temperature-factor column
defaults only the temperature factor. -/
theorem mandatory_columns_and_defaults_witness :
    readAtomsFromPDB [demoGoodLine, demoBadSerialLine] = .error .valueError ∧
    (∃ a, readAtomsFromPDB [demoBlankOccLine] = .ok [a] ∧ a.occupancy = 1) ∧
    (∃ a, readAtomsFromPDB [demoBlankTempLine] = .ok [a] ∧ a.tempFactor = 0) := by
  refine ⟨?_, ?_, ?_⟩
  · exact mandatory_columns_and_defaults.1 [demoGoodLine, demoBadSerialLine]
      demoBadSerialLine (List.mem_cons_of_mem _ (List.mem_cons_self _ _))
      (by decide) (Or.inl (by decide))
  · obtain ⟨a, hread, hoc, _⟩ := mandatory_columns_and_defaults.2 demoBlankOccLine
      (by decide) (by decide) (by decide) (by decide) (by decide) (by decide)
      (Or.inl (by decide)) (Or.inr (by decide))
    exact ⟨a, hread, hoc (by decide)⟩
  · obtain ⟨a, hread, _, htm⟩ := mandatory_columns_and_defaults.2 demoBlankTempLine
      (by decide) (by decide) (by decide) (by decide) (by decide) (by decide)
      (Or.inr (by decide)) (Or.inl (by decide))
    exact ⟨a, hread, htm (by decide)⟩

/-! ### The flat AMBER .crd codec of `resolvate.py` -/

/-- Python slice-index resolution (step 1): a negative index counts from the
end of the sequence; the result clamps to [0, len]. -/
def pyIdx (len : Nat) (i : Int) : Nat :=
  if i < 0 then ((len : Int) + i).toNat else min i.toNat len

/-- Python `l[a:b]` with integer indices. -/
def pySlice {α : Type} (l : List α) (a b : Int) : List α :=
  (l.drop (pyIdx l.length a)).take (pyIdx l.length b - pyIdx l.length a)

/-- Python `str.split()` with no argument: split on whitespace runs,
producing no empty tokens.  The accumulator holds the current token
reversed. -/
def splitWSAux : List Char → List Char → List (List Char)
  | [], acc => if acc = [] then [] else [acc.reverse]
  | c :: rest, acc =>
    if isPySpace c then
      if acc = [] then splitWSAux rest [] else acc.reverse :: splitWSAux rest []
    else splitWSAux rest (c :: acc)

def splitWS (l : List Char) : List (List Char) := splitWSAux l []

/-- Python `line.rstrip(' \n')` as used on the title line. -/
def rstripTitle (l : List Char) : List Char :=
  (l.reverse.dropWhile (fun c => c = ' ' || c = '\n')).reverse

/-- `float()` applied to every whitespace token of the coordinate lines, in
file order; the first failure raises `ValueError`. -/
def parseAllFloats (body : List (List Char)) : Option (List ℚ) :=
  ((body.map splitWS).flatten).mapM parsePyFloat

/-- `readAmberCrd` (source lines 203-227).  The source never initialises
`box_dimensions` or `box_angles`; each is assigned only inside its `if`
guard, so when a guard is false the local is still unbound when the final
`return` tuple is evaluated, and Python raises `UnboundLocalError` — for
`box_dimensions` first, since the tuple is evaluated left to right.  The
`Option` locals below model exactly that: `none` means "never assigned". -/
def readAmberCrd (lines : List (List Char)) :
    Except PyErr (List Char × Int × List ℚ × List ℚ × List ℚ) :=
  match lines with
  | [] => .error .indexError
  | l0 :: rest =>
    match rest with
    | [] => .error .indexError
    | l1 :: body =>
      match splitWS l1 with
      | [] => .error .indexError
      | tok :: _ =>
        match parsePyInt tok with
        | none => .error .valueError
        | some natoms =>
          match parseAllFloats body with
          | none => .error .valueError
          | some coordinates =>
            let box_dimensions : Option (List ℚ) :=
              if (coordinates.length : Int) ≥ 3 * natoms + 3 then
                some (pySlice coordinates (3 * natoms) (3 * natoms + 3))
              else none
            let box_angles : Option (List ℚ) :=
              if (coordinates.length : Int) = 3 * natoms + 6 then
                some (pySlice coordinates (3 * natoms + 3) (3 * natoms + 6))
              else none
            match box_dimensions with
            | none => .error (.unboundLocal "box_dimensions")
            | some bd =>
              match box_angles with
              | none => .error (.unboundLocal "box_angles")
              | some ba =>
                .ok (rstripTitle l0, natoms, pySlice coordinates 0 (3 * natoms), bd, ba)

/-- Python truthiness of the optional box arguments: `None` and the empty
list are both falsy. -/
def truthyList : Option (List ℚ) → Bool
  | none => false
  | some l => !l.isEmpty

/-- The coordinate-writing loop of `writeAmberCrd`: each value in `%12.7f`,
a newline after every sixth value on the current line, and nothing after a
trailing partial line. -/
def writeCoordsLoop : Nat → List ℚ → List Char
  | _, [] => []
  | cnt, v :: rest =>
    if cnt + 1 = 6 then fmtFixed 12 7 v ++ '\n' :: writeCoordsLoop 0 rest
    else fmtFixed 12 7 v ++ writeCoordsLoop (cnt + 1) rest

/-- `writeAmberCrd` (source lines 229-280).  The `raise ParameterError(...)`
statement mentions a name that is defined nowhere in the module, so what
actually escapes is a `NameError` for `ParameterError`; it is raised before
the file is opened, so no file is produced on that path.  The second
component of the result is the final value of the caller's `coordinates`
list object: `coordinates_to_write = coordinates` aliases it and the `+=`
below extend it in place. -/
def writeAmberCrd (coordinates : List ℚ) (title : List Char)
    (box_dimensions box_angles : Option (List ℚ)) :
    Except PyErr (List Char × List ℚ) :=
  if coordinates.length % 3 ≠ 0 then .error (.nameError "ParameterError")
  else
    let natoms := coordinates.length / 3
    let ctw1 := if truthyList box_dimensions then coordinates ++ box_dimensions.getD []
                else coordinates
    let ctw2 := if truthyList box_angles then ctw1 ++ box_angles.getD [] else ctw1
    .ok (title ++ '\n' :: (fmtInt 6 (natoms : Int) ++ '\n' :: writeCoordsLoop 0 ctw2), ctw2)

/-! ### Spec-side description of the coordinate body -/

def chunks6F : Nat → List ℚ → List (List ℚ)
  | 0, _ => []
  | _ + 1, [] => []
  | f + 1, c :: t => ((c :: t).take 6) :: chunks6F f ((c :: t).drop 6)

theorem chunks6F_eq_of_le :
    ∀ (n : Nat) (l : List ℚ) (f g : Nat), l.length ≤ n → l.length ≤ f → l.length ≤ g →
      chunks6F f l = chunks6F g l := by
  intro n
  induction n using Nat.strong_induction_on with
  | _ n ih =>
    intro l f g hn hf hg
    cases l with
    | nil =>
      cases f with
      | zero =>
        cases g with
        | zero => rfl
        | succ g => rfl
      | succ f =>
        cases g with
        | zero => rfl
        | succ g => rfl
    | cons c t =>
      cases f with
      | zero => simp at hf
      | succ f =>
        cases g with
        | zero => simp at hg
        | succ g =>
          simp only [chunks6F]
          congr 1
          have hlen : ((c :: t).drop 6).length = (t.length + 1) - 6 := by simp
          have hn1 : 1 ≤ n := by
            simp at hn
            omega
          apply ih (n - 1) (by omega) _ f g ?_ ?_ ?_
          · simp at hn ⊢
            omega
          · simp at hf ⊢
            omega
          · simp at hg ⊢
            omega

/-- Groups of six values per output line; the last group may be shorter. -/
def chunks6 (l : List ℚ) : List (List ℚ) := chunks6F l.length l

theorem chunks6_cons (c : ℚ) (t : List ℚ) :
    chunks6 (c :: t) = ((c :: t).take 6) :: chunks6 ((c :: t).drop 6) := by
  unfold chunks6
  show chunks6F (t.length + 1) (c :: t) = _
  simp only [chunks6F]
  congr 1
  apply chunks6F_eq_of_le (t.length + 1) _ t.length ((c :: t).drop 6).length ?_ ?_ ?_
  · simp only [List.length_drop, List.length_cons]
    omega
  · simp only [List.length_drop, List.length_cons]
    omega
  · exact le_rfl

/-- One output line of the spec's description: the six (or fewer) values of
a group rendered in 12-character width with 7 decimals, followed by a line
terminator exactly when the group is full. -/
def specChunkLine (c : List ℚ) : List Char :=
  (c.map (fmtFixed 12 7)).flatten ++ (if c.length = 6 then ['\x0a'] else [])

/-- The spec's description of the whole coordinate body: the concatenation
of the rendered six-value groups. -/
def specBody (l : List ℚ) : List Char := ((chunks6 l).map specChunkLine).flatten

theorem writeCoordsLoop_six (a b c d e f : ℚ) (rest : List ℚ) :
    writeCoordsLoop 0 (a :: b :: c :: d :: e :: f :: rest) =
      fmtFixed 12 7 a ++ (fmtFixed 12 7 b ++ (fmtFixed 12 7 c ++ (fmtFixed 12 7 d ++
        (fmtFixed 12 7 e ++ (fmtFixed 12 7 f ++ '\n' :: writeCoordsLoop 0 rest))))) := by
  simp [writeCoordsLoop]

theorem chunks6_nil : chunks6 [] = [] := rfl

theorem writeCoordsLoop_spec : ∀ (n : Nat) (l : List ℚ), l.length ≤ n →
    writeCoordsLoop 0 l = specBody l := by
  intro n
  induction n with
  | zero =>
    intro l hl
    have h0 : l = [] := List.eq_nil_of_length_eq_zero (by omega)
    subst h0
    rfl
  | succ n ih =>
    intro l hl
    match l with
    | [] => rfl
    | [a] => simp [writeCoordsLoop, specBody, chunks6_cons, chunks6_nil, specChunkLine]
    | [a, b] => simp [writeCoordsLoop, specBody, chunks6_cons, chunks6_nil, specChunkLine]
    | [a, b, c] => simp [writeCoordsLoop, specBody, chunks6_cons, chunks6_nil, specChunkLine]
    | [a, b, c, d] =>
      simp [writeCoordsLoop, specBody, chunks6_cons, chunks6_nil, specChunkLine]
    | [a, b, c, d, e] =>
      simp [writeCoordsLoop, specBody, chunks6_cons, chunks6_nil, specChunkLine]
    | a :: b :: c :: d :: e :: f :: rest =>
      rw [writeCoordsLoop_six]
      have hchunks : chunks6 (a :: b :: c :: d :: e :: f :: rest) =
          [a, b, c, d, e, f] :: chunks6 rest := by
        rw [chunks6_cons]
        simp
      have hbody : specBody (a :: b :: c :: d :: e :: f :: rest) =
          specChunkLine [a, b, c, d, e, f] ++ specBody rest := by
        unfold specBody
        rw [hchunks]
        simp
      rw [hbody, ih rest (by simp at hl; omega)]
      simp [specChunkLine]

theorem writeCoordsLoop_eq_specBody (l : List ℚ) : writeCoordsLoop 0 l = specBody l :=
  writeCoordsLoop_spec l.length l le_rfl

/-- C8 (amended): on a payload passing the length check, `writeAmberCrd`
produces the title line, the atom count right-justified in width 6, then
the values (positions, then truthy box dimensions, then truthy box angles)
in groups of six per line, each in 12-character width with 7 decimals, with
a line terminator after each full group of six and none after a trailing
partial group (the output ends with a line terminator only when the value
count is a multiple of six). -/
theorem writeAmberCrd_format (coords : List ℚ) (title : List Char)
    (bd ba : Option (List ℚ)) (hlen : coords.length % 3 = 0) :
    writeAmberCrd coords title bd ba =
      .ok (title ++ '\n' :: (fmtInt 6 ((coords.length / 3 : Nat) : Int) ++ '\n' ::
          specBody (coords ++ bd.getD [] ++ ba.getD [])),
        coords ++ bd.getD [] ++ ba.getD []) := by
  have hctw : (if truthyList ba then
        (if truthyList bd then coords ++ bd.getD [] else coords) ++ ba.getD []
      else (if truthyList bd then coords ++ bd.getD [] else coords)) =
      coords ++ bd.getD [] ++ ba.getD [] := by
    rcases bd with _ | (_ | ⟨y, ys⟩) <;> rcases ba with _ | (_ | ⟨x, xs⟩) <;>
      simp [truthyList]
  unfold writeAmberCrd
  rw [if_neg (by omega)]
  show Except.ok (title ++ '\n' :: (fmtInt 6 ((coords.length / 3 : Nat) : Int) ++ '\n' ::
      writeCoordsLoop 0 (if truthyList ba then
        (if truthyList bd then coords ++ bd.getD [] else coords) ++ ba.getD []
      else (if truthyList bd then coords ++ bd.getD [] else coords))),
    (if truthyList ba then
        (if truthyList bd then coords ++ bd.getD [] else coords) ++ ba.getD []
      else (if truthyList bd then coords ++ bd.getD [] else coords))) = _
  rw [hctw, writeCoordsLoop_eq_specBody]

unseal Rat.add Rat.mul Rat.inv Rat.sub in
/-- Counterexample for C8 as stated: three values make a partial line, and
the written output ends with a digit, not with a line terminator. -/
theorem writeAmberCrd_unterminated_tail :
    writeAmberCrd [1, 2, 3] [] none none =
      .ok ("\n     1\n   1.0000000   2.0000000   3.0000000".toList, [1, 2, 3]) ∧
    ("\n     1\n   1.0000000   2.0000000   3.0000000".toList).getLastD ' ' = '0' ∧
    ('0' : Char) ≠ '\n' := by
  decide

unseal Rat.add Rat.mul Rat.inv Rat.sub in
/-- Witness for the amended C8 format theorem at a concrete payload. -/
theorem writeAmberCrd_format_witness :
    writeAmberCrd [1, 2, 3] [] none none =
      .ok (([] : List Char) ++ '\n' ::
          (fmtInt 6 ((([1, 2, 3] : List ℚ).length / 3 : Nat) : Int) ++ '\n' ::
            specBody ([1, 2, 3] ++ (none : Option (List ℚ)).getD [] ++
              (none : Option (List ℚ)).getD [])),
        [1, 2, 3] ++ (none : Option (List ℚ)).getD [] ++
          (none : Option (List ℚ)).getD []) :=
  writeAmberCrd_format [1, 2, 3] [] none none (by decide)

/-- C3: a coordinate payload whose length is not a multiple of 3 makes
`writeAmberCrd` fail before any output is produced, independent of the box
arguments; the `raise ParameterError(...)` itself escapes as a `NameError`
because the name `ParameterError` is defined nowhere in the module. -/
theorem writeAmberCrd_length_check (coords : List ℚ) (title : List Char)
    (bd ba : Option (List ℚ)) (h : coords.length % 3 ≠ 0) :
    writeAmberCrd coords title bd ba = .error (.nameError "ParameterError") := by
  unfold writeAmberCrd
  rw [if_pos h]

unseal Rat.add Rat.mul Rat.inv Rat.sub in
/-- Witness for C3 at a length-1 payload. -/
theorem writeAmberCrd_length_check_witness :
    writeAmberCrd [(1 : ℚ)] "t".toList (some [4, 5, 6]) none =
      .error (.nameError "ParameterError") :=
  writeAmberCrd_length_check [(1 : ℚ)] "t".toList (some [4, 5, 6]) none (by decide)

/-- C10: with a box-dimensions argument present (3 values) and a payload
passing the length check, the caller's coordinate list object — aliased by
`coordinates_to_write` and extended in place by `+=` — ends up as the
original list followed by the box dimensions, and by the box angles too
when those are also passed; it grows by 3 or by 6 elements. -/
theorem writeAmberCrd_mutates_coordinates (coords : List ℚ) (title : List Char)
    (dims angles : List ℚ) (hlen : coords.length % 3 = 0)
    (hd : dims.length = 3) (ha : angles.length = 3) :
    (writeAmberCrd coords title (some dims) none).map Prod.snd =
      .ok (coords ++ dims) ∧
    (writeAmberCrd coords title (some dims) (some angles)).map Prod.snd =
      .ok (coords ++ dims ++ angles) ∧
    (coords ++ dims).length = coords.length + 3 ∧
    (coords ++ dims ++ angles).length = coords.length + 6 := by
  refine ⟨?_, ?_, by simp [hd], by simp [hd, ha]⟩
  · rw [writeAmberCrd_format coords title (some dims) none hlen]
    simp [Except.map]
  · rw [writeAmberCrd_format coords title (some dims) (some angles) hlen]
    simp [Except.map]

unseal Rat.add Rat.mul Rat.inv Rat.sub in
/-- Witness for C10 at concrete lists. -/
theorem writeAmberCrd_mutates_coordinates_witness :
    (writeAmberCrd [1, 2, 3] [] (some [4, 5, 6]) none).map Prod.snd =
      .ok ([1, 2, 3] ++ [4, 5, 6]) ∧
    (writeAmberCrd [1, 2, 3] [] (some [4, 5, 6]) (some [90, 91, 92])).map Prod.snd =
      .ok ([1, 2, 3] ++ [4, 5, 6] ++ [90, 91, 92]) ∧
    ([1, 2, 3] ++ [4, 5, 6] : List ℚ).length = ([1, 2, 3] : List ℚ).length + 3 ∧
    ([1, 2, 3] ++ [4, 5, 6] ++ [90, 91, 92] : List ℚ).length =
      ([1, 2, 3] : List ℚ).length + 6 :=
  writeAmberCrd_mutates_coordinates [1, 2, 3] [] [4, 5, 6] [90, 91, 92]
    (by decide) (by decide) (by decide)

unseal Rat.add Rat.mul Rat.inv Rat.sub in
/-- C2: evaluation at the claim's "box metadata absent" cases.  With no box
values (flat length exactly 3*natoms) the reader does not return normally
with absent fields as the docstring promises: the uninitialised local
`box_dimensions` is hit at the return statement.  With dimensions but no
angles (length 3*natoms+3) it is `box_angles` that is hit. -/
theorem readAmberCrd_missing_box_crash :
    readAmberCrd ["t".toList, "1".toList, "1.0 2.0 3.0".toList] =
      .error (.unboundLocal "box_dimensions") ∧
    readAmberCrd ["t".toList, "1".toList, "1.0 2.0 3.0 4.0 5.0 6.0".toList] =
      .error (.unboundLocal "box_angles") ∧
    readAmberCrd ["t".toList, "1".toList, "1.0 2.0 3.0 4.0 5.0 6.0 7.0 8.0 9.0".toList] =
      .ok ("t".toList, 1, [1, 2, 3], [4, 5, 6], [7, 8, 9]) := by
  refine ⟨by decide, by decide, by decide⟩

/-- C4 (amended): `readAmberCrd` performs no length validation.  On input
whose flat numeric sequence has fewer than 3*natoms values it nevertheless
fails, but with the unbound-local error on `box_dimensions`, not with a
parse error. -/
theorem readAmberCrd_short_input (l0 l1 : List Char) (body : List (List Char))
    (tok : List Char) (toks : List (List Char)) (natoms : Int) (coords : List ℚ)
    (hsplit : splitWS l1 = tok :: toks) (htok : parsePyInt tok = some natoms)
    (hbody : parseAllFloats body = some coords)
    (hshort : (coords.length : Int) < 3 * natoms) :
    readAmberCrd (l0 :: l1 :: body) = .error (.unboundLocal "box_dimensions") := by
  simp only [readAmberCrd, hsplit, htok, hbody]
  rw [if_neg (by omega : ¬((coords.length : Int) ≥ 3 * natoms + 3))]

unseal Rat.add Rat.mul Rat.inv Rat.sub in
/-- Counterexample for C4 as stated: a file with natoms = 2 but a single
coordinate value fails with the unbound-local error, not with the parse
(`ValueError`) failure kind the spec calls `FormatError`. -/
theorem readAmberCrd_short_not_format_error :
    readAmberCrd ["t".toList, "2".toList, "1.0".toList] =
      .error (.unboundLocal "box_dimensions") ∧
    readAmberCrd ["t".toList, "2".toList, "1.0".toList] ≠ .error .valueError := by
  refine ⟨by decide, by decide⟩

unseal Rat.add Rat.mul Rat.inv Rat.sub in
/-- Witness for the amended C4 theorem at a concrete short file. -/
theorem readAmberCrd_short_input_witness :
    splitWS "2".toList = ["2".toList] ∧
    parsePyInt "2".toList = some 2 ∧
    parseAllFloats ["1.0".toList] = some [1] ∧
    ((([(1 : ℚ)]).length : Int) < 3 * 2) ∧
    readAmberCrd ["t".toList, "2".toList, "1.0".toList] =
      .error (.unboundLocal "box_dimensions") :=
  ⟨by decide, by decide, by decide, by decide,
    readAmberCrd_short_input "t".toList "2".toList ["1.0".toList] "2".toList [] 2 [1]
      (by decide) (by decide) (by decide) (by decide)⟩

/-! ### Subprocess exit-status handling in the two workflows -/

/-- The three engine binaries invoked by `gromacs_energies`. -/
inductive GmxBin where
  | grompp : GmxBin
  | mdrun : GmxBin
  | genergy : GmxBin
deriving DecidableEq

/-- The subprocess control flow of `gromacs_energies` (source lines 34-63),
as a function of each binary's exit status: the list of binaries invoked,
in order, and the message of the exception raised (if any).  Each
`subprocess.call` result is tested with `if exit:` and a non-zero status
raises immediately; with `grompp_check` the function returns after grompp.
The energy-table parsing that follows a successful `g_energy` run is not
part of this claim and is not modelled. -/
def gromacsEnergiesRun (top : List Char) (gromppExit mdrunExit genergyExit : Int)
    (grompp_check : Bool) : List GmxBin × Option (List Char) :=
  if gromppExit ≠ 0 then ([.grompp], some ("grompp failed for ".toList ++ top))
  else if grompp_check then ([.grompp], none)
  else if mdrunExit ≠ 0 then ([.grompp, .mdrun], some ("mdrun failed for ".toList ++ top))
  else if genergyExit ≠ 0 then
    ([.grompp, .mdrun, .genergy], some ("g_energy failed for ".toList ++ top))
  else ([.grompp, .mdrun, .genergy], none)

/-- The observable outcome of the packmol invocation in the resolvate main
script: the subprocess exit status and the `output.pdb` the packer may have
produced. -/
structure PackmolWorld where
  exitStatus : Int
  outputPdb : Option (List (List Char))

/-- The resolvate main-script step around the packmol call (source lines
416-423): `commands.getoutput(command)` returns only the combined output
text — the exit status is never inspected — and the script proceeds
directly to `readAtomsFromPDB` on `output.pdb` (an `IOError` arises only
when the packer produced no file at all). -/
def resolvateAfterPackmol (w : PackmolWorld) : Except PyErr (List AtomRecord) :=
  match w.outputPdb with
  | none => .error .ioError
  | some ls => readAtomsFromPDB ls

/-- Counterexample for C9 as stated: with a non-zero packmol exit status
and a (trivially valid) output file, the resolvation workflow does not
abort and proceeds to its next step, returning the parsed atoms. -/
theorem packmol_exit_ignored :
    resolvateAfterPackmol ⟨1, some []⟩ = .ok [] ∧
    resolvateAfterPackmol ⟨1, some []⟩ = resolvateAfterPackmol ⟨0, some []⟩ :=
  ⟨rfl, rfl⟩

/-- C9 (amended): in the energy-extraction workflow a non-zero exit status
of grompp, mdrun or g_energy aborts the run with an exception naming the
failed command, later binaries are not invoked, and no binary is invoked
twice (no retry); in the resolvation workflow the packing tool's exit
status is ignored and the script proceeds to read the packer's output
regardless. -/
theorem subprocess_exit_handling (top : List Char) (ge me ye : Int) (chk : Bool) :
    (ge ≠ 0 → gromacsEnergiesRun top ge me ye chk =
      ([.grompp], some ("grompp failed for ".toList ++ top))) ∧
    (ge = 0 → chk = false → me ≠ 0 → gromacsEnergiesRun top ge me ye chk =
      ([.grompp, .mdrun], some ("mdrun failed for ".toList ++ top))) ∧
    (ge = 0 → chk = false → me = 0 → ye ≠ 0 → gromacsEnergiesRun top ge me ye chk =
      ([.grompp, .mdrun, .genergy], some ("g_energy failed for ".toList ++ top))) ∧
    ((gromacsEnergiesRun top ge me ye chk).1.count .grompp ≤ 1 ∧
     (gromacsEnergiesRun top ge me ye chk).1.count .mdrun ≤ 1 ∧
     (gromacsEnergiesRun top ge me ye chk).1.count .genergy ≤ 1) ∧
    (∀ (e1 e2 : Int) (f : Option (List (List Char))),
      resolvateAfterPackmol ⟨e1, f⟩ = resolvateAfterPackmol ⟨e2, f⟩) := by
  refine ⟨?_, ?_, ?_, ?_, fun e1 e2 f => rfl⟩
  · intro h
    unfold gromacsEnergiesRun
    rw [if_pos h]
  · intro h1 h2 h3
    unfold gromacsEnergiesRun
    rw [if_neg (by simp [h1]), if_neg (by simp [h2]), if_pos h3]
  · intro h1 h2 h3 h4
    unfold gromacsEnergiesRun
    rw [if_neg (by simp [h1]), if_neg (by simp [h2]), if_neg (by simp [h3]), if_pos h4]
  · unfold gromacsEnergiesRun
    split_ifs <;>
      exact ⟨by simp [List.count_cons, List.count_nil],
        by simp [List.count_cons, List.count_nil],
        by simp [List.count_cons, List.count_nil]⟩

/-- Witness for the amended C9 theorem at concrete exit statuses. -/
theorem subprocess_exit_handling_witness :
    gromacsEnergiesRun "a.top".toList 1 0 0 false =
      ([.grompp], some ("grompp failed for ".toList ++ "a.top".toList)) ∧
    gromacsEnergiesRun "a.top".toList 0 1 0 false =
      ([.grompp, .mdrun], some ("mdrun failed for ".toList ++ "a.top".toList)) ∧
    gromacsEnergiesRun "a.top".toList 0 0 1 false =
      ([.grompp, .mdrun, .genergy],
        some ("g_energy failed for ".toList ++ "a.top".toList)) :=
  ⟨(subprocess_exit_handling "a.top".toList 1 0 0 false).1 (by decide),
   (subprocess_exit_handling "a.top".toList 0 1 0 false).2.1 (by decide) (by decide)
     (by decide),
   (subprocess_exit_handling "a.top".toList 0 0 1 false).2.2.1 (by decide) (by decide)
     (by decide) (by decide)⟩
